import Mathlib

/-!
# Package iteration (`lib/iterate.c`)

A shallow embedding of the generic iterate-and-match driver of `lib/iterate.c`,
of the two directory adapters, of the match strategies and of the four
aggregation entry points, followed by theorems about them.

Conventions of the embedding.

* A C string is the list of its characters (`CStr`); a `NULL` pointer to a
  string is `none`.
* A C `int` is an `Int`; the functions modelled here never do arithmetic on
  one, they only compare it with a constant and pass it on.
* A callback `int f(const char *, void *cookie)` is a function
  `CStr → μ → Int × μ`, where `μ` is the type of what the cookie points to:
  the callback returns its result together with the updated cookie contents.
* A source `const char *src(void *cookie)` is a function `σ → Option CStr × σ`.
* The `while` loop of `iterate_pkg_generic_src` runs as long as the source
  keeps producing entries, so it is modelled with a fuel argument and an
  `Option` result (`none` means the fuel ran out).
* `warnx` writes a diagnostic to standard error, which is not part of the
  modelled state.
-/

set_option autoImplicit false

namespace PkgIterate

/-- A C string without its terminating NUL. -/
abbrev CStr := List Char

variable {μ σ κ L : Type}

/-! ## Generic iterator -/

/-- The `while` loop of `iterate_pkg_generic_src`, with the local `retval` as
loop variable: pull an entry, stop with `retval` on `NULL`, otherwise call
`matchiter`, assign its result to `retval` and `break` if it is non-zero. -/
def iterate_loop (matchiter : CStr → μ → Int × μ) (srciter : σ → Option CStr × σ) :
    Nat → Int → μ → σ → Option (Int × μ × σ)
  | 0, _, _, _ => none
  | fuel + 1, retval, match_cookie, src_cookie =>
    match srciter src_cookie with
    | (none, src_cookie1) => some (retval, match_cookie, src_cookie1)
    | (some entry, src_cookie1) =>
      match matchiter entry match_cookie with
      | (r, match_cookie1) =>
        if r ≠ 0 then some (r, match_cookie1, src_cookie1)
        else iterate_loop matchiter srciter fuel r match_cookie1 src_cookie1

/-- The function `iterate_pkg_generic_src`: `retval = 0`, then the loop. The
result is the returned `int` with the final contents of both cookies. -/
def iterate_pkg_generic_src (matchiter : CStr → μ → Int × μ) (match_cookie : μ)
    (srciter : σ → Option CStr × σ) (src_cookie : σ) (fuel : Nat) :
    Option (Int × μ × σ) :=
  iterate_loop matchiter srciter fuel 0 match_cookie src_cookie

/-! ### Vocabulary for statements about sources and callbacks -/

/-- `Pulls srciter s es s1`: calling `srciter` successively, starting with
cookie contents `s`, returns the entries `es` one after the other and leaves
the cookie contents `s1`. -/
inductive Pulls (srciter : σ → Option CStr × σ) : σ → List CStr → σ → Prop
  | nil (s : σ) : Pulls srciter s [] s
  | cons {s s1 s2 : σ} {e : CStr} {es : List CStr} :
      srciter s = (some e, s1) → Pulls srciter s1 es s2 → Pulls srciter s (e :: es) s2

/-- `Yields srciter s es s1`: the source sequence of `srciter` from `s` is
`es`: it returns the entries `es`, then `NULL`, and the cookie is left as `s1`. -/
def Yields (srciter : σ → Option CStr × σ) (s : σ) (es : List CStr) (s1 : σ) : Prop :=
  ∃ sl, Pulls srciter s es sl ∧ srciter sl = (none, s1)

/-- Contents of the match cookie after `matchiter` has been called on each
entry of `es` in turn, starting from `mc`. -/
def cookie_after (matchiter : CStr → μ → Int × μ) (mc : μ) (es : List CStr) : μ :=
  es.foldl (fun m e => (matchiter e m).2) mc

/-- Result of calling `matchiter` on `e` after it has been called on each
entry of `pre`. -/
def result_after (matchiter : CStr → μ → Int × μ) (mc : μ) (pre : List CStr) (e : CStr) : Int :=
  (matchiter e (cookie_after matchiter mc pre)).1

/-- Every call of `matchiter` along `es` (starting from `mc`) returns zero. -/
def quiet (matchiter : CStr → μ → Int × μ) (mc : μ) (es : List CStr) : Prop :=
  ∀ pre e post, es = pre ++ e :: post → result_after matchiter mc pre e = 0

/-- A callback instrumented to record, in order, the entries it is called on. -/
def traced (matchiter : CStr → μ → Int × μ) : CStr → μ × List CStr → Int × (μ × List CStr) :=
  fun e st => ((matchiter e st.1).1, ((matchiter e st.1).2, st.2 ++ [e]))

/-- A source that hands out the elements of a list, then `NULL`. -/
def list_src : List CStr → Option CStr × List CStr
  | [] => (none, [])
  | e :: es => (some e, es)

/-! ## C library functions used by the file

The C standard fixes only the sign of what `strcmp`, `strncmp` and `memcmp`
return, so the models return `-1`, `0` or `1`. Characters are compared by
their code, as `unsigned char`s are. -/

/-- The function `strcmp(s, t)`. -/
def strcmp : CStr → CStr → Int
  | [], [] => 0
  | [], _ :: _ => -1
  | _ :: _, [] => 1
  | a :: s, b :: t => if a = b then strcmp s t else if a.toNat < b.toNat then -1 else 1

/-- The function `strncmp(s, t, n)`: compares at most `n` characters and stops
at the end of either string. -/
def strncmp : CStr → CStr → Nat → Int
  | _, _, 0 => 0
  | [], [], _ + 1 => 0
  | [], _ :: _, _ + 1 => -1
  | _ :: _, [], _ + 1 => 1
  | a :: s, b :: t, n + 1 =>
    if a = b then strncmp s t n else if a.toNat < b.toNat then -1 else 1

/-- The function `memcmp(s, t, n)` on buffers that hold at least `n` bytes
(the code only calls it on such buffers); a buffer that ends early compares
as smaller. -/
def memcmp : CStr → CStr → Nat → Int
  | _, _, 0 => 0
  | [], [], _ + 1 => 0
  | [], _ :: _, _ + 1 => -1
  | _ :: _, [], _ + 1 => 1
  | a :: s, b :: t, n + 1 =>
    if a = b then memcmp s t n else if a.toNat < b.toNat then -1 else 1

/-- Scan of `strrchr`: walk the string from offset `i`, remembering in `last`
the offset of the latest occurrence of `c` seen so far. -/
def strrchr_scan (c : Char) : CStr → Nat → Option Nat → Option Nat
  | [], _, last => last
  | a :: s, i, last => strrchr_scan c s (i + 1) (if a = c then some i else last)

/-- The function `strrchr(s, c)`: the offset in `s` of the last occurrence of
`c` (the returned pointer minus `s`), or `none` for `NULL`. -/
def strrchr (s : CStr) (c : Char) : Option Nat :=
  strrchr_scan c s 0 none

/-! ## Heap: `strdup` and `free` -/

/-- The part of the heap the file touches: the live blocks (address and
contents), the next fresh address, and the outcomes of the coming allocation
attempts (`true` at the head: the next `strdup` fails; an empty list: every
further attempt succeeds). -/
structure Heap where
  live : List (Nat × CStr)
  next : Nat
  oom : List Bool
  deriving DecidableEq, Repr

/-- The function `strdup(s)`: `NULL` when the allocation fails, otherwise a
fresh block holding a copy of `s`. -/
def strdup (h : Heap) (s : CStr) : Option Nat × Heap :=
  match h.oom with
  | true :: rest => (none, { h with oom := rest })
  | _ => (some h.next, { live := (h.next, s) :: h.live, next := h.next + 1, oom := h.oom.tail })

/-- The function `free(p)`; `free(NULL)` does nothing. -/
def free (h : Heap) : Option Nat → Heap
  | none => h
  | some p => { h with live := h.live.filter (fun b => b.1 ≠ p) }

/-- The string a pointer points to: `none` for `NULL` (or a block that is
not live). -/
def Heap.read (h : Heap) (p : Option Nat) : Option CStr :=
  p.bind (fun a => h.live.lookup a)

/-! ## Directories -/

/-- A `struct dirent`: name and type of a directory entry. On a platform
whose `<dirent.h>` has no `DT_UNKNOWN`/`DT_DIR`, the type checks of the
adapters are compiled out; that is the behaviour on entries of type
`DT_UNKNOWN`, so such a platform is a listing with all types `DT_UNKNOWN`. -/
structure dirent where
  d_name : CStr
  d_type : Nat
  deriving DecidableEq, Repr

/-- Value of `DT_UNKNOWN` in `<dirent.h>`. -/
def DT_UNKNOWN : Nat := 0
/-- Value of `DT_DIR` in `<dirent.h>`. -/
def DT_DIR : Nat := 4
/-- Value of `DT_REG` in `<dirent.h>`. -/
def DT_REG : Nat := 8

/-- An open directory stream: the entries `readdir` has yet to return. An
error of `readdir` shows as the end of the stream, as in the C code. -/
abbrev DIR := List dirent

/-- What the directory system calls did, in order. -/
inductive FsEvent where
  | opendir_ok (path : CStr)
  | opendir_failed (path : CStr)
  | closedir_ok
  | closedir_failed
  deriving DecidableEq, Repr

/-- The environment of a call: what `opendir` finds at each path (`none`: it
fails), the path `_pkgdb_getPKGDB_DIR()` returns, whether `closedir` will
fail, and the directory system calls made so far. -/
structure World where
  dirs : CStr → Option (List dirent)
  pkgdb_dir : CStr
  closedir_fails : Bool
  trace : List FsEvent

/-- The function `opendir(path)`. -/
def opendir (w : World) (path : CStr) : Option DIR × World :=
  match w.dirs path with
  | none => (none, { w with trace := w.trace ++ [FsEvent.opendir_failed path] })
  | some entries => (some entries, { w with trace := w.trace ++ [FsEvent.opendir_ok path] })

/-- The function `closedir(dirp)`: `-1` on failure, `0` otherwise. -/
def closedir (w : World) (_dirp : DIR) : Int × World :=
  if w.closedir_fails then (-1, { w with trace := w.trace ++ [FsEvent.closedir_failed] })
  else (0, { w with trace := w.trace ++ [FsEvent.closedir_ok] })

/-- The source `pkg_dir_iter`: `readdir` takes the head of the stream; the
entry is skipped when its type is known and not a regular file, when its name
has fewer than 5 characters, or when its last 4 characters are neither
`.tgz` nor `.tbz`. -/
def pkg_dir_iter : DIR → Option CStr × DIR
  | [] => (none, [])
  | dp :: dirp =>
    if dp.d_type ≠ DT_UNKNOWN ∧ dp.d_type ≠ DT_REG then pkg_dir_iter dirp
    else if dp.d_name.length < 5 then pkg_dir_iter dirp
    else if memcmp (dp.d_name.drop (dp.d_name.length - 4)) ['.', 't', 'g', 'z'] 4 = 0 ∨
        memcmp (dp.d_name.drop (dp.d_name.length - 4)) ['.', 't', 'b', 'z'] 4 = 0 then
      (some dp.d_name, dirp)
    else pkg_dir_iter dirp

/-- The function `iterate_local_pkg_dir`. -/
def iterate_local_pkg_dir (dir : CStr) (matchiter : CStr → μ → Int × μ) (cookie : μ)
    (w : World) (fuel : Nat) : Option (Int × μ × World) :=
  match opendir w dir with
  | (none, w1) => some (-1, cookie, w1)
  | (some dirp, w1) =>
    match iterate_pkg_generic_src matchiter cookie pkg_dir_iter dirp fuel with
    | none => none
    | some (retval, cookie1, dirp1) =>
      if (closedir w1 dirp1).1 = -1 then some (-1, cookie1, (closedir w1 dirp1).2)
      else some (retval, cookie1, (closedir w1 dirp1).2)

/-- The source `pkg_db_iter`: `readdir` takes the head of the stream; the
entry is skipped when it is one of the five reserved names or when its type
is known and not a directory. -/
def pkg_db_iter : DIR → Option CStr × DIR
  | [] => (none, [])
  | dp :: dirp =>
    if strcmp dp.d_name ['.'] = 0 then pkg_db_iter dirp
    else if strcmp dp.d_name ['.', '.'] = 0 then pkg_db_iter dirp
    else if strcmp dp.d_name "pkgdb.byfile.db".toList = 0 then pkg_db_iter dirp
    else if strcmp dp.d_name ".cookie".toList = 0 then pkg_db_iter dirp
    else if strcmp dp.d_name "pkg-vulnerabilities".toList = 0 then pkg_db_iter dirp
    else if dp.d_type ≠ DT_UNKNOWN ∧ dp.d_type ≠ DT_DIR then pkg_db_iter dirp
    else (some dp.d_name, dirp)

/-- The function `iterate_pkg_db`: `-1` when the package database directory
cannot be opened, otherwise the generic iteration over `pkg_db_iter`, whose
result is replaced by `-1` when `closedir` fails. -/
def iterate_pkg_db (matchiter : CStr → μ → Int × μ) (cookie : μ) (w : World) (fuel : Nat) :
    Option (Int × μ × World) :=
  match opendir w w.pkgdb_dir with
  | (none, w1) => some (-1, cookie, w1)
  | (some dirp, w1) =>
    match iterate_pkg_generic_src matchiter cookie pkg_db_iter dirp fuel with
    | none => none
    | some (retval, cookie1, dirp1) =>
      if (closedir w1 dirp1).1 = -1 then some (-1, cookie1, (closedir w1 dirp1).2)
      else some (retval, cookie1, (closedir w1 dirp1).2)

/-! ## Match strategies -/

/-- The function `match_by_basename`; its cookie is the target string, which
it does not modify. -/
def match_by_basename (pkg : CStr) (target : CStr) : Int :=
  match strrchr pkg '-' with
  | none => 0
  | some off => if strncmp pkg target off = 0 ∧ target.length = off then 1 else 0

/-- The function `match_by_pattern`; `pkg_match` is defined outside this file
and is a parameter. -/
def match_by_pattern (pkg_match : CStr → CStr → Int) (pkg : CStr) (pattern : CStr) : Int :=
  pkg_match pattern pkg

/-- The `struct add_matching_arg`. The field `pkghead` holds the contents of
the tail queue the C field points to; `L` is the type of its records. -/
structure add_matching_arg (L : Type) where
  pkghead : List L
  got_match : Nat
  match_fn : CStr → CStr → Int
  cookie : CStr

/-- The function `match_and_add`; `alloc_lpkg` is defined outside this file
and is a parameter; `TAILQ_INSERT_TAIL` appends at the end. -/
def match_and_add (alloc_lpkg : CStr → L) (pkg : CStr) (arg : add_matching_arg L) :
    Int × add_matching_arg L :=
  if arg.match_fn pkg arg.cookie = 1 then
    (0, { arg with got_match := 1, pkghead := arg.pkghead ++ [alloc_lpkg pkg] })
  else
    (0, arg)

/-- The function `add_installed_pkgs_by_basename`: the returned `int`, the
contents of `pkghead` afterwards, and the environment afterwards. -/
def add_installed_pkgs_by_basename (alloc_lpkg : CStr → L) (pkgbase : CStr) (pkghead : List L)
    (w : World) (fuel : Nat) : Option (Int × List L × World) :=
  match iterate_pkg_db (match_and_add alloc_lpkg)
      { pkghead := pkghead, got_match := 0, match_fn := match_by_basename, cookie := pkgbase }
      w fuel with
  | none => none
  | some (r, arg, w1) =>
    if r = -1 then some (-1, arg.pkghead, w1) else some ((arg.got_match : Int), arg.pkghead, w1)

/-- The function `add_installed_pkgs_by_pattern`. -/
def add_installed_pkgs_by_pattern (pkg_match : CStr → CStr → Int) (alloc_lpkg : CStr → L)
    (pattern : CStr) (pkghead : List L) (w : World) (fuel : Nat) :
    Option (Int × List L × World) :=
  match iterate_pkg_db (match_and_add alloc_lpkg)
      { pkghead := pkghead, got_match := 0, match_fn := match_by_pattern pkg_match,
        cookie := pattern }
      w fuel with
  | none => none
  | some (r, arg, w1) =>
    if r = -1 then some (-1, arg.pkghead, w1) else some ((arg.got_match : Int), arg.pkghead, w1)

/-- The `struct best_installed_match_arg`; `best_current_match` is a pointer
into the heap or `NULL`. -/
structure best_installed_match_arg where
  pattern : CStr
  best_current_match : Option Nat
  deriving DecidableEq, Repr

/-- The function `match_best_installed`; its cookie state is the pair of
the argument structure and the heap. `pkg_order` is defined outside this file
and is a parameter; it is given the string `best_current_match` points to. -/
def match_best_installed (pkg_order : CStr → CStr → Option CStr → Int) (pkg : CStr)
    (st : best_installed_match_arg × Heap) : Int × (best_installed_match_arg × Heap) :=
  if pkg_order st.1.pattern pkg (st.2.read st.1.best_current_match) = 0 ∨
      pkg_order st.1.pattern pkg (st.2.read st.1.best_current_match) = 2 then
    (0, st)
  else if pkg_order st.1.pattern pkg (st.2.read st.1.best_current_match) = 1 then
    match strdup (free st.2 st.1.best_current_match) pkg with
    | (none, h1) => (-1, ({ st.1 with best_current_match := none }, h1))
    | (some p, h1) => (0, ({ st.1 with best_current_match := some p }, h1))
  else
    (0, st)

/-- The function `find_best_matching_installed_pkg`: the returned pointer,
the heap afterwards and the environment afterwards. -/
def find_best_matching_installed_pkg (pkg_order : CStr → CStr → Option CStr → Int)
    (pattern : CStr) (h : Heap) (w : World) (fuel : Nat) : Option (Option Nat × Heap × World) :=
  match iterate_pkg_db (match_best_installed pkg_order)
      ({ pattern := pattern, best_current_match := none }, h) w fuel with
  | none => none
  | some (r, st, w1) =>
    if r = -1 then some (none, st.2, w1) else some (st.1.best_current_match, st.2, w1)

/-- The `struct call_matching_arg`; `κ` is the type of what the caller's
cookie points to. -/
structure call_matching_arg (κ : Type) where
  pattern : CStr
  call_fn : CStr → κ → Int × κ
  cookie : κ

/-- The function `match_and_call`. -/
def match_and_call (pkg_match : CStr → CStr → Int) (pkg : CStr) (arg : call_matching_arg κ) :
    Int × call_matching_arg κ :=
  if pkg_match arg.pattern pkg = 1 then
    ((arg.call_fn pkg arg.cookie).1, { arg with cookie := (arg.call_fn pkg arg.cookie).2 })
  else
    (0, arg)

/-- The function `match_installed_pkgs`: the returned `int`, the contents of
the caller's cookie afterwards and the environment afterwards. -/
def match_installed_pkgs (pkg_match : CStr → CStr → Int) (pattern : CStr)
    (cb : CStr → κ → Int × κ) (cookie : κ) (w : World) (fuel : Nat) :
    Option (Int × κ × World) :=
  match iterate_pkg_db (match_and_call pkg_match)
      { pattern := pattern, call_fn := cb, cookie := cookie } w fuel with
  | none => none
  | some (r, arg, w1) => some (r, arg.cookie, w1)

/-! ## Sample inputs -/

/-- A sample stateful match function: it counts its calls in the cookie and
returns 7 on the entry `b`, 0 on every other entry. -/
def sample_match : CStr → Nat → Int × Nat :=
  fun e n => (if e = ['b'] then 7 else 0, n + 1)

/-- A sample source sequence. -/
def sample_entries : List CStr := [['a'], ['b'], ['c']]

/-- The entries the package-database adapter is to yield: the name is none of
the five reserved ones and the type is unknown or directory. -/
def pkg_db_keeps (dp : dirent) : Bool :=
  decide (dp.d_name ∉ [['.'], ['.', '.'], "pkgdb.byfile.db".toList, ".cookie".toList,
      "pkg-vulnerabilities".toList]) &&
    decide (dp.d_type = DT_UNKNOWN ∨ dp.d_type = DT_DIR)

/-- The names of the entries of a listing that `pkg_db_keeps` retains, in
the order of the listing. -/
def pkg_db_names (dir : List dirent) : List CStr :=
  (dir.filter pkg_db_keeps).map dirent.d_name

/-- A sample package database directory: three installed packages among
reserved entries. -/
def sample_db : List dirent :=
  [⟨".".toList, DT_DIR⟩, ⟨"..".toList, DT_DIR⟩, ⟨"foo-1.0".toList, DT_DIR⟩,
   ⟨"pkgdb.byfile.db".toList, DT_REG⟩, ⟨"foo-2.0".toList, DT_UNKNOWN⟩,
   ⟨"bar-1.0".toList, DT_DIR⟩]

/-- A sample environment: the package database is at `/var/db/pkg` and
holds `listing`; no other directory can be opened. -/
def sample_world (listing : List dirent) (closedir_fails : Bool) : World :=
  { dirs := fun path => if path = "/var/db/pkg".toList then some listing else none
    pkgdb_dir := "/var/db/pkg".toList
    closedir_fails := closedir_fails
    trace := [] }

/-- A sample environment in which the package database cannot be opened. -/
def sample_world_noent : World :=
  { dirs := fun _ => none
    pkgdb_dir := "/var/db/pkg".toList
    closedir_fails := false
    trace := [] }

/-- The fold the best-match selection is to compute (specification 4.3):
go through the candidates from left to right and replace the accumulator by
the candidate exactly when the ordering function, applied to the pattern, the
candidate and the accumulator, returns 1. -/
def best_fold (pkg_order : CStr → CStr → Option CStr → Int) (pattern : CStr)
    (acc : Option CStr) (es : List CStr) : Option CStr :=
  es.foldl (fun best c => if pkg_order pattern c best = 1 then some c else best) acc

/-- The contract of the ordering function (specification 4.3) for a pattern,
relative to a set of matching names and a total preorder `le` on names: on an
empty accumulator it returns 1 exactly for a matching candidate, and on an
accumulator holding a matching name it returns 1 exactly for a matching
candidate that is strictly better. -/
structure OrderContract (pkg_order : CStr → CStr → Option CStr → Int) (pattern : CStr)
    (isMatch : CStr → Prop) (le : CStr → CStr → Prop) : Prop where
  le_refl : ∀ a, le a a
  le_trans : ∀ a b c, le a b → le b c → le a c
  le_total : ∀ a b, le a b ∨ le b a
  on_empty : ∀ c, pkg_order pattern c none = 1 ↔ isMatch c
  on_best : ∀ c b, isMatch b → (pkg_order pattern c (some b) = 1 ↔ isMatch c ∧ ¬ le c b)

/-- A sample pattern matcher: a pattern ending in `*` matches the names that
start with what precedes the `*`; any other pattern matches itself only. -/
def sample_pkg_match (pattern pkg : CStr) : Int :=
  match pattern.getLast? with
  | some '*' => if pattern.dropLast.isPrefixOf pkg then 1 else 0
  | _ => if pattern = pkg then 1 else 0

/-- A sample ordering function that prefers the name that is later in
lexicographic order (so the higher version of one package): 0 when the
candidate does not match, 1 when it matches and there is no best yet or it is
later than the best, 2 otherwise. -/
def sample_pkg_order (pattern pkg : CStr) (best : Option CStr) : Int :=
  if sample_pkg_match pattern pkg ≠ 1 then 0
  else match best with
    | none => 1
    | some b => if b < pkg then 1 else 2

/-- A sample ordering function whose preorder has ties: it prefers the longer
name, and two matching names of the same length are equally good. -/
def length_pkg_order (pattern pkg : CStr) (best : Option CStr) : Int :=
  if sample_pkg_match pattern pkg ≠ 1 then 0
  else match best with
    | none => 1
    | some b => if b.length < pkg.length then 1 else 2

/-- A heap with nothing allocated whose coming allocation attempts have the
given outcomes. -/
def sample_heap (oom : List Bool) : Heap :=
  { live := [], next := 0, oom := oom }

/-- A sample database listing: foo-1.0 before foo-2.0. -/
def sample_db_12 : List dirent :=
  [⟨"foo-1.0".toList, DT_DIR⟩, ⟨"foo-2.0".toList, DT_DIR⟩]

/-- The same database enumerated in the other order: foo-2.0 before foo-1.0. -/
def sample_db_21 : List dirent :=
  [⟨"foo-2.0".toList, DT_DIR⟩, ⟨"foo-1.0".toList, DT_DIR⟩]

/-- The environment after a successful `opendir` of the package database
directory followed by `closedir`: both calls are added to the trace. -/
def after_pkgdb_scan (w : World) : World :=
  { w with trace := w.trace ++ [FsEvent.opendir_ok w.pkgdb_dir,
      if w.closedir_fails = true then FsEvent.closedir_failed else FsEvent.closedir_ok] }

/-- The environment after a failed `opendir` of the package database
directory. -/
def after_pkgdb_open_failed (w : World) : World :=
  { w with trace := w.trace ++ [FsEvent.opendir_failed w.pkgdb_dir] }

/-- A sample caller callback: it counts its calls in the cookie and returns
1, so it asks to stop at its first call. -/
def sample_cb : CStr → Nat → Int × Nat :=
  fun _ n => (1, n + 1)

/-- The cookie of `match_best_installed` (argument structure and heap) after
`find_best_matching_installed_pkg` has passed the entries `pre` to it. -/
def accumulator_after (pkg_order : CStr → CStr → Option CStr → Int) (pattern : CStr)
    (h : Heap) (pre : List CStr) : best_installed_match_arg × Heap :=
  cookie_after (match_best_installed pkg_order) (⟨pattern, none⟩, h) pre

/-- The entries the archive-file adapter is to yield: the type is unknown or
regular file, the name has at least 5 characters and its last 4 characters
are `.tgz` or `.tbz`. -/
def pkg_dir_keeps (dp : dirent) : Bool :=
  decide (dp.d_type = DT_UNKNOWN ∨ dp.d_type = DT_REG) &&
    decide (5 ≤ dp.d_name.length) &&
    decide (dp.d_name.drop (dp.d_name.length - 4) = ['.', 't', 'g', 'z'] ∨
      dp.d_name.drop (dp.d_name.length - 4) = ['.', 't', 'b', 'z'])

/-- The names of the entries of a listing that `pkg_dir_keeps` retains, in
the order of the listing. -/
def pkg_dir_names (dir : List dirent) : List CStr :=
  (dir.filter pkg_dir_keeps).map dirent.d_name

/-- An entry is named `*.tgz` or `*.tbz`: its name ends in one of the two
suffixes. -/
def named_archive (dp : dirent) : Bool :=
  decide (['.', 't', 'g', 'z'] <:+ dp.d_name ∨ ['.', 't', 'b', 'z'] <:+ dp.d_name)

/-- An archive candidate of the local package directory (specification 6): a
regular file, or an entry of unknown type, named `*.tgz` or `*.tbz` with a
name of at least 5 characters. -/
def archive_candidate (dp : dirent) : Bool :=
  named_archive dp && decide (5 ≤ dp.d_name.length) &&
    decide (dp.d_type = DT_UNKNOWN ∨ dp.d_type = DT_REG)

/-- A sample local package directory: a directory named x.tgz, a file whose
whole name is .tgz, a file named a.TGZ, and the archives a.tgz and b.tbz. -/
def sample_pkg_dir : List dirent :=
  [⟨"x.tgz".toList, DT_DIR⟩, ⟨".tgz".toList, DT_REG⟩, ⟨"a.TGZ".toList, DT_REG⟩,
   ⟨"a.tgz".toList, DT_REG⟩, ⟨"b.tbz".toList, DT_UNKNOWN⟩]

/-- A sample database listing with a malformed entry: `junk` has no `-`. -/
def sample_db_malformed : List dirent :=
  [⟨"foo-1.0".toList, DT_DIR⟩, ⟨"junk".toList, DT_DIR⟩, ⟨"foo-2.0".toList, DT_DIR⟩]

/-- A sample database with the single installed package foo-1.0. -/
def sample_db_1 : List dirent :=
  [⟨"foo-1.0".toList, DT_DIR⟩]

/-- The heap holds the block of the accumulator and nothing else: no live
block when `best_current_match` is `NULL`, and otherwise exactly the block it
points to. -/
def owns_only_best (st : best_installed_match_arg × Heap) : Prop :=
  (st.1.best_current_match = none ∧ st.2.live = []) ∨
  (∃ a s, st.1.best_current_match = some a ∧ st.2.live = [(a, s)])

/-! ### Lemmas on the vocabulary -/

theorem cookie_after_nil (matchiter : CStr → μ → Int × μ) (mc : μ) :
    cookie_after matchiter mc [] = mc := rfl

theorem cookie_after_cons (matchiter : CStr → μ → Int × μ) (mc : μ) (e : CStr)
    (es : List CStr) :
    cookie_after matchiter mc (e :: es) = cookie_after matchiter (matchiter e mc).2 es := rfl

theorem cookie_after_append (matchiter : CStr → μ → Int × μ) (mc : μ) (xs ys : List CStr) :
    cookie_after matchiter mc (xs ++ ys)
      = cookie_after matchiter (cookie_after matchiter mc xs) ys := by
  simp [cookie_after, List.foldl_append]

theorem result_after_nil (matchiter : CStr → μ → Int × μ) (mc : μ) (e : CStr) :
    result_after matchiter mc [] e = (matchiter e mc).1 := rfl

theorem result_after_cons (matchiter : CStr → μ → Int × μ) (mc : μ) (x : CStr)
    (pre : List CStr) (e : CStr) :
    result_after matchiter mc (x :: pre) e = result_after matchiter (matchiter x mc).2 pre e := rfl

theorem quiet_nil (matchiter : CStr → μ → Int × μ) (mc : μ) : quiet matchiter mc [] := by
  intro pre e post h
  cases pre <;> simp at h

theorem quiet_cons (matchiter : CStr → μ → Int × μ) (mc : μ) (x : CStr) (es : List CStr) :
    quiet matchiter mc (x :: es)
      ↔ (matchiter x mc).1 = 0 ∧ quiet matchiter (matchiter x mc).2 es := by
  constructor
  · intro h
    refine ⟨h [] x es rfl, ?_⟩
    intro pre e post hes
    have := h (x :: pre) e post (by simp [hes])
    simpa [result_after_cons] using this
  · rintro ⟨h0, h⟩ pre e post hes
    cases pre with
    | nil =>
      simp only [List.nil_append, List.cons.injEq] at hes
      obtain ⟨rfl, -⟩ := hes
      simpa [result_after_nil] using h0
    | cons y pre =>
      simp only [List.cons_append, List.cons.injEq] at hes
      obtain ⟨rfl, hes⟩ := hes
      rw [result_after_cons]
      exact h pre e post hes

theorem pulls_snoc {srciter : σ → Option CStr × σ} {s s1 s2 : σ} {es : List CStr} {e : CStr}
    (h : Pulls srciter s es s1) (he : srciter s1 = (some e, s2)) :
    Pulls srciter s (es ++ [e]) s2 := by
  induction h with
  | nil s => exact Pulls.cons he (Pulls.nil _)
  | cons h0 _ ih => exact Pulls.cons h0 (ih he)

theorem pulls_list_src (es rest : List CStr) : Pulls list_src (es ++ rest) es rest := by
  induction es with
  | nil => exact Pulls.nil _
  | cons e es ih => exact Pulls.cons rfl ih

theorem yields_list_src (es : List CStr) : Yields list_src es es [] :=
  ⟨[], by simpa using pulls_list_src es [], rfl⟩

/-- What the loop does on a source known to produce `es` and then `NULL`:
either every call returned zero and the loop ran to the end, or it stopped
at the first entry whose call returned non-zero. -/
theorem iterate_loop_run (matchiter : CStr → μ → Int × μ) (srciter : σ → Option CStr × σ)
    {sc sl s1 : σ} {es : List CStr} (hp : Pulls srciter sc es sl)
    (hend : srciter sl = (none, s1)) :
    ∀ (fuel : Nat) (mc : μ), es.length < fuel →
      (quiet matchiter mc es ∧
        iterate_loop matchiter srciter fuel 0 mc sc
          = some (0, cookie_after matchiter mc es, s1)) ∨
      (∃ pre e post sm, es = pre ++ e :: post ∧ quiet matchiter mc pre ∧
        result_after matchiter mc pre e ≠ 0 ∧ Pulls srciter sc (pre ++ [e]) sm ∧
        iterate_loop matchiter srciter fuel 0 mc sc
          = some (result_after matchiter mc pre e,
              cookie_after matchiter mc (pre ++ [e]), sm)) := by
  induction hp with
  | nil s =>
    intro fuel mc hf
    left
    obtain ⟨f, rfl⟩ : ∃ f, fuel = f + 1 := ⟨fuel - 1, by simp at hf; omega⟩
    exact ⟨quiet_nil _ _, by simp [iterate_loop, hend, cookie_after_nil]⟩
  | @cons s sa sb e es h0 _ ih =>
    intro fuel mc hf
    obtain ⟨f, rfl⟩ : ∃ f, fuel = f + 1 := ⟨fuel - 1, by simp at hf; omega⟩
    have hf1 : es.length < f := by simp at hf; omega
    by_cases hr : (matchiter e mc).1 = 0
    · rcases ih hend f (matchiter e mc).2 hf1 with ⟨hq, hrun⟩ | ⟨pre, x, post, sm, hes, hq, hne, hpl, hrun⟩
      · left
        refine ⟨(quiet_cons _ _ _ _).2 ⟨hr, hq⟩, ?_⟩
        simp only [iterate_loop, h0, hr, ne_eq, not_true_eq_false, if_false]
        rw [← hr, cookie_after_cons]
        simpa [hr] using hrun
      · right
        refine ⟨e :: pre, x, post, sm, by simp [hes], (quiet_cons _ _ _ _).2 ⟨hr, hq⟩,
          by simpa [result_after_cons] using hne, Pulls.cons h0 hpl, ?_⟩
        simp only [iterate_loop, h0, hr, ne_eq, not_true_eq_false, if_false]
        simpa [hr, result_after_cons, cookie_after_cons] using hrun
    · right
      refine ⟨[], e, es, sa, rfl, quiet_nil _ _, by simpa [result_after_nil] using hr,
        Pulls.cons h0 (Pulls.nil _), ?_⟩
      simp [iterate_loop, h0, hr, result_after_nil, cookie_after]

/-- C1: on a source whose sequence is `es`, with enough fuel for the loop,
`iterate_pkg_generic_src` returns; the value is either 0, every call of
the match function having returned 0 (this covers the empty source), or the
non-zero result of the match function on the first entry, in source order,
whose call returned non-zero. -/
theorem iterate_pkg_generic_src_result (matchiter : CStr → μ → Int × μ) (mc : μ)
    (srciter : σ → Option CStr × σ) (sc s1 : σ) (es : List CStr) (fuel : Nat)
    (hsrc : Yields srciter sc es s1) (hfuel : es.length < fuel) :
    ∃ r mc1 sc1, iterate_pkg_generic_src matchiter mc srciter sc fuel = some (r, mc1, sc1) ∧
      ((r = 0 ∧ quiet matchiter mc es) ∨
       (r ≠ 0 ∧ ∃ pre e post, es = pre ++ e :: post ∧ quiet matchiter mc pre ∧
          r = result_after matchiter mc pre e)) := by
  obtain ⟨sl, hp, hend⟩ := hsrc
  rcases iterate_loop_run matchiter srciter hp hend fuel mc hfuel with
    ⟨hq, hrun⟩ | ⟨pre, e, post, sm, hes, hq, hne, -, hrun⟩
  · exact ⟨_, _, _, hrun, Or.inl ⟨rfl, hq⟩⟩
  · exact ⟨_, _, _, hrun, Or.inr ⟨hne, pre, e, post, hes, hq, rfl⟩⟩

/-- C1 (witness): the sample match function on the source `a`, `b`, `c`. -/
theorem iterate_pkg_generic_src_result_witness :
    ∃ r mc1 sc1, iterate_pkg_generic_src sample_match 0 list_src sample_entries 4
        = some (r, mc1, sc1) ∧
      ((r = 0 ∧ quiet sample_match 0 sample_entries) ∨
       (r ≠ 0 ∧ ∃ pre e post, sample_entries = pre ++ e :: post ∧ quiet sample_match 0 pre ∧
          r = result_after sample_match 0 pre e)) :=
  iterate_pkg_generic_src_result sample_match 0 list_src sample_entries [] sample_entries 4
    (yields_list_src sample_entries) (by decide)

theorem cookie_after_traced (matchiter : CStr → μ → Int × μ) (mc : μ) (log es : List CStr) :
    cookie_after (traced matchiter) (mc, log) es = (cookie_after matchiter mc es, log ++ es) := by
  induction es generalizing mc log with
  | nil => simp [cookie_after]
  | cons e es ih =>
    rw [cookie_after_cons, cookie_after_cons]
    simp only [traced]
    rw [ih]
    simp

theorem result_after_traced (matchiter : CStr → μ → Int × μ) (mc : μ) (log pre : List CStr)
    (e : CStr) :
    result_after (traced matchiter) (mc, log) pre e = result_after matchiter mc pre e := by
  simp [result_after, cookie_after_traced, traced]

theorem quiet_traced (matchiter : CStr → μ → Int × μ) (mc : μ) (log es : List CStr) :
    quiet (traced matchiter) (mc, log) es ↔ quiet matchiter mc es := by
  simp [quiet, result_after_traced]

/-- Instrumenting the callback changes nothing but the record of its calls. -/
theorem iterate_loop_traced (matchiter : CStr → μ → Int × μ) (srciter : σ → Option CStr × σ) :
    ∀ (fuel : Nat) (retval : Int) (mc : μ) (log : List CStr) (sc : σ),
      iterate_loop matchiter srciter fuel retval mc sc
        = (iterate_loop (traced matchiter) srciter fuel retval (mc, log) sc).map
            (fun x => (x.1, x.2.1.1, x.2.2)) := by
  intro fuel
  induction fuel with
  | zero => intros; rfl
  | succ f ih =>
    intro retval mc log sc
    simp only [iterate_loop]
    rcases hs : srciter sc with ⟨_ | e, sc1⟩
    · simp
    · simp only [traced]
      by_cases hr : (matchiter e mc).1 = 0
      · simp only [hr, ne_eq, not_true_eq_false, if_false]
        rw [← hr]
        exact ih _ _ _ _
      · simp [hr]

/-- C2: on a source whose sequence is `es`, with enough fuel for the loop,
the entries passed to the match function (as recorded by the instrumented
callback) are, once each and in source order, all of `es` when every call
returned 0, and otherwise the entries up to and including the first one whose
call returned non-zero; in that case the source cookie is left as it is after
pulling exactly those entries, so nothing after the stop is pulled. The
instrumented run returns what the plain run returns. -/
theorem iterate_pkg_generic_src_calls (matchiter : CStr → μ → Int × μ) (mc : μ)
    (srciter : σ → Option CStr × σ) (sc s1 : σ) (es : List CStr) (fuel : Nat)
    (hsrc : Yields srciter sc es s1) (hfuel : es.length < fuel) :
    ∃ r mc1 log sc1,
      iterate_pkg_generic_src (traced matchiter) (mc, []) srciter sc fuel
        = some (r, (mc1, log), sc1) ∧
      iterate_pkg_generic_src matchiter mc srciter sc fuel = some (r, mc1, sc1) ∧
      ((quiet matchiter mc es ∧ log = es ∧ sc1 = s1) ∨
       (∃ pre e post, es = pre ++ e :: post ∧ quiet matchiter mc pre ∧
          result_after matchiter mc pre e ≠ 0 ∧ log = pre ++ [e] ∧
          Pulls srciter sc (pre ++ [e]) sc1)) := by
  obtain ⟨sl, hp, hend⟩ := hsrc
  have hsim := iterate_loop_traced matchiter srciter fuel 0 mc [] sc
  rcases iterate_loop_run (traced matchiter) srciter hp hend fuel (mc, []) hfuel with
    ⟨hq, hrun⟩ | ⟨pre, e, post, sm, hes, hq, hne, hpl, hrun⟩
  · rw [cookie_after_traced] at hrun
    refine ⟨_, _, _, _, hrun, ?_, Or.inl ⟨(quiet_traced _ _ _ _).1 hq, by simp, rfl⟩⟩
    simp only [iterate_pkg_generic_src]
    rw [hsim, hrun]
    rfl
  · rw [cookie_after_traced, result_after_traced] at hrun
    rw [result_after_traced] at hne
    refine ⟨_, _, _, _, hrun, ?_,
      Or.inr ⟨pre, e, post, hes, (quiet_traced _ _ _ _).1 hq, hne, by simp, hpl⟩⟩
    simp only [iterate_pkg_generic_src]
    rw [hsim, hrun]
    rfl

/-- C2 (witness): the sample match function on the source `a`, `b`, `c`. -/
theorem iterate_pkg_generic_src_calls_witness :
    ∃ r mc1 log sc1,
      iterate_pkg_generic_src (traced sample_match) (0, []) list_src sample_entries 4
        = some (r, (mc1, log), sc1) ∧
      iterate_pkg_generic_src sample_match 0 list_src sample_entries 4 = some (r, mc1, sc1) ∧
      ((quiet sample_match 0 sample_entries ∧ log = sample_entries ∧ sc1 = []) ∨
       (∃ pre e post, sample_entries = pre ++ e :: post ∧ quiet sample_match 0 pre ∧
          result_after sample_match 0 pre e ≠ 0 ∧ log = pre ++ [e] ∧
          Pulls list_src sample_entries (pre ++ [e]) sc1)) :=
  iterate_pkg_generic_src_calls sample_match 0 list_src sample_entries [] sample_entries 4
    (yields_list_src sample_entries) (by decide)

/-- The sample run, evaluated: the loop stops at `b` with result 7 after two
calls, and `c` is left in the source. -/
theorem sample_run_value :
    iterate_pkg_generic_src (traced sample_match) (0, []) list_src sample_entries 4
      = some (7, (2, [['a'], ['b']]), [['c']]) := by
  decide

/-! ### Exact-basename match -/

theorem strrchr_scan_not_mem (c : Char) (s : CStr) (hc : c ∉ s) (i : Nat) (last : Option Nat) :
    strrchr_scan c s i last = last := by
  induction s generalizing i last with
  | nil => rfl
  | cons a s ih =>
    simp only [List.mem_cons, not_or] at hc
    have hac : ¬ a = c := fun h => hc.1 h.symm
    simp [strrchr_scan, hac, ih hc.2]

theorem strrchr_scan_last (c : Char) (pre suf : CStr) (hsuf : c ∉ suf) (i : Nat)
    (last : Option Nat) :
    strrchr_scan c (pre ++ c :: suf) i last = some (i + pre.length) := by
  induction pre generalizing i last with
  | nil => simp [strrchr_scan, strrchr_scan_not_mem c suf hsuf]
  | cons a pre ih =>
    show strrchr_scan c (pre ++ c :: suf) (i + 1) _ = some (i + (pre.length + 1))
    rw [ih]
    congr 1
    omega

theorem exists_last_occurrence (c : Char) (s : CStr) (hc : c ∈ s) :
    ∃ pre suf, s = pre ++ c :: suf ∧ c ∉ suf := by
  induction s with
  | nil => simp at hc
  | cons a s ih =>
    by_cases hs : c ∈ s
    · obtain ⟨pre, suf, rfl, hsuf⟩ := ih hs
      exact ⟨a :: pre, suf, rfl, hsuf⟩
    · have hac : c = a := by
        rcases List.mem_cons.1 hc with h | h
        · exact h
        · exact absurd h hs
      exact ⟨[], s, by simp [hac], hs⟩

theorem strncmp_eq_zero_iff (s t : CStr) (n : Nat) :
    strncmp s t n = 0 ↔ s.take n = t.take n := by
  induction n generalizing s t with
  | zero => simp [strncmp]
  | succ n ih =>
    cases s with
    | nil => cases t <;> simp [strncmp]
    | cons a s =>
      cases t with
      | nil => simp [strncmp]
      | cons b t =>
        by_cases hab : a = b
        · simp [strncmp, hab, ih]
        · by_cases hlt : a.toNat < b.toNat <;> simp [strncmp, hab, hlt]

theorem match_by_basename_eq_one_iff (pkg target : CStr) :
    match_by_basename pkg target = 1
      ↔ ∃ pre suf, pkg = pre ++ '-' :: suf ∧ '-' ∉ suf ∧ pre = target := by
  by_cases hmem : '-' ∈ pkg
  · obtain ⟨pre, suf, rfl, hsuf⟩ := exists_last_occurrence '-' pkg hmem
    have hoff : strrchr (pre ++ '-' :: suf) '-' = some pre.length := by
      simp [strrchr, strrchr_scan_last '-' pre suf hsuf]
    constructor
    · intro h
      simp only [match_by_basename, hoff, strncmp_eq_zero_iff] at h
      by_cases hc : (pre ++ '-' :: suf).take pre.length = target.take pre.length ∧
          target.length = pre.length
      · refine ⟨pre, suf, rfl, hsuf, ?_⟩
        have h1 := hc.1
        rw [List.take_left, ← hc.2, List.take_length] at h1
        exact h1
      · rw [if_neg hc] at h
        exact absurd h (by decide)
    · rintro ⟨pre2, suf2, heq, hsuf2, rfl⟩
      have hlen : pre2 = pre := by
        rcases List.append_eq_append_iff.1 heq with ⟨a, h1, h2⟩ | ⟨a, h1, h2⟩
        · cases a with
          | nil =>
            have h3 : pre2 = pre := by simpa using h1
            exact h3
          | cons x a =>
            simp only [List.cons_append, List.cons.injEq] at h2
            exact absurd (by rw [h2.2]; simp) hsuf
        · cases a with
          | nil =>
            have h3 : pre = pre2 := by simpa using h1
            exact h3.symm
          | cons x a =>
            simp only [List.cons_append, List.cons.injEq] at h2
            exact absurd (by rw [h2.2]; simp) hsuf2
      subst hlen
      simp [match_by_basename, hoff, strncmp_eq_zero_iff]
  · constructor
    · intro h
      simp [match_by_basename, strrchr, strrchr_scan_not_mem '-' pkg hmem] at h
    · rintro ⟨pre, suf, rfl, -, -⟩
      simp at hmem

/-- C3: `match_by_basename` returns 1 exactly when the full name has a `-`
and what stands before its last `-` is the target, character for character
and in length; in every other case it returns 0. So target `foo` matches
`foo-1.0` and matches neither `foobar-1.0` nor `foo-bar-1.0`. -/
theorem match_by_basename_spec :
    (∀ pkg target : CStr,
      (match_by_basename pkg target = 1
        ↔ ∃ pre suf, pkg = pre ++ '-' :: suf ∧ '-' ∉ suf ∧ pre = target) ∧
      (match_by_basename pkg target ≠ 1 → match_by_basename pkg target = 0)) ∧
    match_by_basename "foo-1.0".toList "foo".toList = 1 ∧
    match_by_basename "foobar-1.0".toList "foo".toList = 0 ∧
    match_by_basename "foo-bar-1.0".toList "foo".toList = 0 := by
  refine ⟨fun pkg target => ⟨match_by_basename_eq_one_iff pkg target, ?_⟩,
    by decide, by decide, by decide⟩
  intro h
  unfold match_by_basename at h ⊢
  split
  · rfl
  · rename_i off hoff
    rw [hoff] at h
    simp only at h
    split
    · rename_i hc
      rw [if_pos hc] at h
      exact absurd rfl h
    · rfl

/-! ### The package-database adapter and `iterate_pkg_db` -/

theorem strcmp_eq_zero_iff (s t : CStr) : strcmp s t = 0 ↔ s = t := by
  induction s generalizing t with
  | nil => cases t <;> simp [strcmp]
  | cons a s ih =>
    cases t with
    | nil => simp [strcmp]
    | cons b t =>
      by_cases hab : a = b
      · simp [strcmp, hab, ih]
      · by_cases hlt : a.toNat < b.toNat <;> simp [strcmp, hab, hlt]

theorem pkg_db_iter_cons (dp : dirent) (dirp : DIR) :
    pkg_db_iter (dp :: dirp)
      = if pkg_db_keeps dp then (some dp.d_name, dirp) else pkg_db_iter dirp := by
  simp only [pkg_db_iter, strcmp_eq_zero_iff, pkg_db_keeps, String.toList]
  by_cases h1 : dp.d_name = ['.']
  · simp [h1]
  by_cases h2 : dp.d_name = ['.', '.']
  · simp [h2]
  by_cases h3 : dp.d_name = "pkgdb.byfile.db".toList
  · simp only [String.toList] at h3
    simp [h3]
  by_cases h4 : dp.d_name = ".cookie".toList
  · simp only [String.toList] at h4
    simp [h4]
  by_cases h5 : dp.d_name = "pkg-vulnerabilities".toList
  · simp only [String.toList] at h5
    simp [h5]
  simp only [String.toList] at h3 h4 h5
  by_cases h6 : dp.d_type = DT_UNKNOWN
  · simp [h1, h2, h3, h4, h5, h6]
  by_cases h7 : dp.d_type = DT_DIR
  · simp [h1, h2, h3, h4, h5, h7]
  simp [h1, h2, h3, h4, h5, h6, h7]

theorem yields_of_eq {srciter : σ → Option CStr × σ} {s t s1 : σ} {es : List CStr}
    (hst : srciter t = srciter s) (h : Yields srciter s es s1) : Yields srciter t es s1 := by
  obtain ⟨sl, hp, hend⟩ := h
  cases hp with
  | nil => exact ⟨t, Pulls.nil t, by rw [hst]; exact hend⟩
  | cons h0 hrest => exact ⟨sl, Pulls.cons (by rw [hst]; exact h0) hrest, hend⟩

/-- The sequence of `pkg_db_iter` on a listing is `pkg_db_names` of it, and
the stream is left empty. -/
theorem yields_pkg_db_iter (dir : List dirent) :
    Yields pkg_db_iter dir (pkg_db_names dir) [] := by
  induction dir with
  | nil => exact ⟨[], Pulls.nil _, rfl⟩
  | cons dp dir ih =>
    by_cases hk : pkg_db_keeps dp = true
    · obtain ⟨sl, hp, hend⟩ := ih
      refine ⟨sl, ?_, hend⟩
      simp only [pkg_db_names, List.filter_cons, hk, if_true, List.map_cons]
      exact Pulls.cons (by rw [pkg_db_iter_cons, if_pos hk]) hp
    · have hnames : pkg_db_names (dp :: dir) = pkg_db_names dir := by
        simp [pkg_db_names, List.filter_cons, hk]
      rw [hnames]
      exact yields_of_eq (by rw [pkg_db_iter_cons, if_neg hk]) ih

theorem pulls_unique {srciter : σ → Option CStr × σ} {s a b : σ} {es : List CStr}
    (h1 : Pulls srciter s es a) (h2 : Pulls srciter s es b) : a = b := by
  induction h1 with
  | nil s => cases h2; rfl
  | cons h0 _ ih =>
    cases h2 with
    | cons h0' hrest =>
      rw [h0] at h0'
      simp only [Prod.mk.injEq, Option.some.injEq, true_and] at h0'
      subst h0'
      exact ih hrest

/-- A source has one sequence only. -/
theorem yields_unique {srciter : σ → Option CStr × σ} {s a b : σ} {es es' : List CStr}
    (h1 : Yields srciter s es a) (h2 : Yields srciter s es' b) : es = es' := by
  obtain ⟨sl, hp, hend⟩ := h1
  obtain ⟨sl', hp', hend'⟩ := h2
  induction hp generalizing es' with
  | nil s =>
    cases hp' with
    | nil => rfl
    | cons h0 _ => rw [hend] at h0; simp at h0
  | cons h0 _ ih =>
    cases hp' with
    | nil => rw [hend'] at h0; simp at h0
    | cons h0' hrest =>
      rw [h0] at h0'
      simp only [Prod.mk.injEq, Option.some.injEq] at h0'
      obtain ⟨rfl, rfl⟩ := h0'
      rw [ih hend hrest]

/-- The environment after a successful `opendir` of the package database
followed by `closedir`. -/
theorem iterate_pkg_db_of_open (matchiter : CStr → μ → Int × μ) (mc : μ) (w : World)
    (fuel : Nat) (dir : List dirent) (hopen : w.dirs w.pkgdb_dir = some dir) :
    iterate_pkg_db matchiter mc w fuel
      = (iterate_pkg_generic_src matchiter mc pkg_db_iter dir fuel).map
          (fun x => (if w.closedir_fails = true then -1 else x.1, x.2.1,
            after_pkgdb_scan w)) := by
  simp only [iterate_pkg_db, opendir, hopen, after_pkgdb_scan]
  cases hrun : iterate_pkg_generic_src matchiter mc pkg_db_iter dir fuel with
  | none => rfl
  | some x =>
    obtain ⟨r, mc1, d1⟩ := x
    cases hcf : w.closedir_fails <;> simp [closedir, hcf]

theorem iterate_pkg_db_of_open_failed (matchiter : CStr → μ → Int × μ) (mc : μ) (w : World)
    (fuel : Nat) (hopen : w.dirs w.pkgdb_dir = none) :
    iterate_pkg_db matchiter mc w fuel
      = some (-1, mc, after_pkgdb_open_failed w) := by
  simp [iterate_pkg_db, opendir, hopen, after_pkgdb_open_failed]

/-- A property of the match cookie that every call preserves holds when the
loop returns. -/
theorem iterate_loop_preserves (matchiter : CStr → μ → Int × μ) (srciter : σ → Option CStr × σ)
    (P : μ → Prop) (hstep : ∀ e m, P m → P (matchiter e m).2) :
    ∀ (fuel : Nat) (retval : Int) (mc : μ) (sc : σ) (r : Int) (mc1 : μ) (sc1 : σ),
      P mc → iterate_loop matchiter srciter fuel retval mc sc = some (r, mc1, sc1) → P mc1 := by
  intro fuel
  induction fuel with
  | zero => intro _ _ _ _ _ _ _ h; simp [iterate_loop] at h
  | succ f ih =>
    intro retval mc sc r mc1 sc1 hP h
    simp only [iterate_loop] at h
    rcases hs : srciter sc with ⟨_ | e, sc2⟩
    · rw [hs] at h
      simp only [Option.some.injEq, Prod.mk.injEq] at h
      obtain ⟨-, rfl, -⟩ := h
      exact hP
    · rw [hs] at h
      simp only at h
      by_cases hr : (matchiter e mc).1 = 0
      · simp only [hr, ne_eq, not_true_eq_false, if_false] at h
        exact ih _ _ _ _ _ _ (hstep e mc hP) h
      · simp only [ne_eq, hr, not_false_eq_true, if_true, Option.some.injEq,
          Prod.mk.injEq] at h
        obtain ⟨-, rfl, -⟩ := h
        exact hstep e mc hP

/-! ### Collect operations -/

/-- When the callback always returns 0 the loop runs over the whole source. -/
theorem iterate_pkg_generic_src_of_zero (matchiter : CStr → μ → Int × μ)
    (hzero : ∀ e m, (matchiter e m).1 = 0) (mc : μ) (srciter : σ → Option CStr × σ)
    (sc s1 : σ) (es : List CStr) (fuel : Nat) (hsrc : Yields srciter sc es s1)
    (hfuel : es.length < fuel) :
    iterate_pkg_generic_src matchiter mc srciter sc fuel
      = some (0, cookie_after matchiter mc es, s1) := by
  obtain ⟨sl, hp, hend⟩ := hsrc
  rcases iterate_loop_run matchiter srciter hp hend fuel mc hfuel with
    ⟨-, hrun⟩ | ⟨pre, e, post, sm, -, -, hne, -, -⟩
  · exact hrun
  · exact absurd (hzero _ _) hne

theorem match_and_add_fst (alloc_lpkg : CStr → L) (pkg : CStr) (arg : add_matching_arg L) :
    (match_and_add alloc_lpkg pkg arg).1 = 0 := by
  unfold match_and_add
  split <;> rfl

/-- The argument structure of `match_and_add` after calls on `es`. -/
theorem cookie_after_match_and_add (alloc_lpkg : CStr → L) (es : List CStr) :
    ∀ arg : add_matching_arg L,
      (cookie_after (match_and_add alloc_lpkg) arg es).pkghead
          = arg.pkghead
            ++ (es.filter (fun e => decide (arg.match_fn e arg.cookie = 1))).map alloc_lpkg ∧
      ((∃ e ∈ es, arg.match_fn e arg.cookie = 1) →
        (cookie_after (match_and_add alloc_lpkg) arg es).got_match = 1) ∧
      ((¬ ∃ e ∈ es, arg.match_fn e arg.cookie = 1) →
        (cookie_after (match_and_add alloc_lpkg) arg es).got_match = arg.got_match) ∧
      (arg.got_match = 1 → (cookie_after (match_and_add alloc_lpkg) arg es).got_match = 1) := by
  induction es with
  | nil => intro arg; simp [cookie_after]
  | cons x es ih =>
    intro arg
    rw [cookie_after_cons]
    by_cases hx : arg.match_fn x arg.cookie = 1
    · have hstep : (match_and_add alloc_lpkg x arg).2
          = ⟨arg.pkghead ++ [alloc_lpkg x], 1, arg.match_fn, arg.cookie⟩ := by
        simp [match_and_add, hx]
      rw [hstep]
      obtain ⟨h1, -, -, h4⟩ := ih ⟨arg.pkghead ++ [alloc_lpkg x], 1, arg.match_fn, arg.cookie⟩
      refine ⟨?_, fun _ => h4 rfl, fun hno => absurd ⟨x, by simp, hx⟩ hno, fun _ => h4 rfl⟩
      rw [h1]
      simp [List.filter_cons, hx]
    · have hstep : (match_and_add alloc_lpkg x arg).2 = arg := by
        simp [match_and_add, hx]
      rw [hstep]
      obtain ⟨h1, h2, h3, h4⟩ := ih arg
      refine ⟨?_, ?_, ?_, h4⟩
      · rw [h1]
        simp [List.filter_cons, hx]
      · rintro ⟨e, he, hm⟩
        rcases List.mem_cons.1 he with rfl | he
        · exact absurd hm hx
        · exact h2 ⟨e, he, hm⟩
      · intro hno
        exact h3 (fun ⟨e, he, hm⟩ => hno ⟨e, List.mem_cons_of_mem _ he, hm⟩)

/-- C4: when the package database directory opens and closes successfully
and `es` is what the adapter `pkg_db_iter` yields on it, then (with fuel for
the loop) `add_installed_pkgs_by_basename` returns and leaves in `pkghead`
the initial list followed by one record `alloc_lpkg e` for each yielded entry
`e` that `match_by_basename` matches against `pkgbase`, in the order they
were yielded. -/
theorem add_installed_pkgs_by_basename_list (alloc_lpkg : CStr → L) (pkgbase : CStr)
    (pkghead : List L) (w : World) (dir : List dirent) (es : List CStr) (dend : DIR)
    (fuel : Nat) (hopen : w.dirs w.pkgdb_dir = some dir) (hclose : w.closedir_fails = false)
    (hy : Yields pkg_db_iter dir es dend) (hfuel : es.length < fuel) :
    ∃ r w1, add_installed_pkgs_by_basename alloc_lpkg pkgbase pkghead w fuel
      = some (r, pkghead
          ++ (es.filter (fun e => decide (match_by_basename e pkgbase = 1))).map alloc_lpkg,
          w1) := by
  have hrun := iterate_pkg_generic_src_of_zero (match_and_add alloc_lpkg)
    (match_and_add_fst alloc_lpkg)
    { pkghead := pkghead, got_match := 0, match_fn := match_by_basename, cookie := pkgbase }
    pkg_db_iter dir dend es fuel hy hfuel
  have hca := (cookie_after_match_and_add alloc_lpkg es
    { pkghead := pkghead, got_match := 0, match_fn := match_by_basename, cookie := pkgbase }).1
  simp only [add_installed_pkgs_by_basename, iterate_pkg_db_of_open _ _ _ _ _ hopen, hrun,
    hclose, Option.map_some']
  simp only [Bool.false_eq_true, if_false]
  rw [if_neg (by decide), hca]
  exact ⟨_, _, rfl⟩

/-- C4 (witness): the sample database (foo-1.0, foo-2.0, bar-1.0 among
reserved entries), basename foo, an empty initial list and records that are
the names themselves. -/
theorem add_installed_pkgs_by_basename_list_witness :
    ∃ r w1, add_installed_pkgs_by_basename id "foo".toList [] (sample_world sample_db false) 7
      = some (r, []
          ++ ((pkg_db_names sample_db).filter
                (fun e => decide (match_by_basename e "foo".toList = 1))).map id,
          w1) :=
  add_installed_pkgs_by_basename_list id "foo".toList [] (sample_world sample_db false)
    sample_db (pkg_db_names sample_db) [] 7 (by decide) rfl (yields_pkg_db_iter sample_db)
    (by decide)

/-- The scenario of the specification, evaluated: on the sample database
basename foo returns 1 and appends foo-1.0 and foo-2.0 in that order, and
basename baz returns 0 and leaves the list as it was. -/
theorem scenario_collect_by_basename :
    (add_installed_pkgs_by_basename id "foo".toList [['x']]
        (sample_world sample_db false) 7).map (fun x => (x.1, x.2.1))
      = some (1, [['x'], "foo-1.0".toList, "foo-2.0".toList]) ∧
    (add_installed_pkgs_by_basename id "baz".toList [['x']]
        (sample_world sample_db false) 7).map (fun x => (x.1, x.2.1))
      = some (0, [['x']]) := by
  constructor <;> decide

theorem match_and_add_got_match (alloc_lpkg : CStr → L) (e : CStr) (arg : add_matching_arg L)
    (h : arg.got_match = 0 ∨ arg.got_match = 1) :
    (match_and_add alloc_lpkg e arg).2.got_match = 0 ∨
      (match_and_add alloc_lpkg e arg).2.got_match = 1 := by
  unfold match_and_add
  split
  · exact Or.inr rfl
  · exact h

/-- C5: when the package database directory opens and closes successfully
and `es` is what the adapter yields on it, `add_installed_pkgs_by_basename`
returns 1 if some yielded entry matches the basename and 0 if none does; and
whatever the environment, a value it returns is -1, 0 or 1. -/
theorem add_installed_pkgs_by_basename_result (alloc_lpkg : CStr → L) (pkgbase : CStr)
    (pkghead : List L) (w : World) (dir : List dirent) (es : List CStr) (dend : DIR)
    (fuel : Nat) (hopen : w.dirs w.pkgdb_dir = some dir) (hclose : w.closedir_fails = false)
    (hy : Yields pkg_db_iter dir es dend) (hfuel : es.length < fuel) :
    (∃ r l w1, add_installed_pkgs_by_basename alloc_lpkg pkgbase pkghead w fuel
        = some (r, l, w1) ∧
      ((∃ e ∈ es, match_by_basename e pkgbase = 1) → r = 1) ∧
      ((¬ ∃ e ∈ es, match_by_basename e pkgbase = 1) → r = 0)) ∧
    (∀ (w0 : World) (fuel0 : Nat) (r : Int) (l : List L) (w1 : World),
      add_installed_pkgs_by_basename alloc_lpkg pkgbase pkghead w0 fuel0 = some (r, l, w1) →
        r = -1 ∨ r = 0 ∨ r = 1) := by
  constructor
  · have hrun := iterate_pkg_generic_src_of_zero (match_and_add alloc_lpkg)
      (match_and_add_fst alloc_lpkg)
      { pkghead := pkghead, got_match := 0, match_fn := match_by_basename, cookie := pkgbase }
      pkg_db_iter dir dend es fuel hy hfuel
    obtain ⟨-, h2, h3, -⟩ := cookie_after_match_and_add alloc_lpkg es
      { pkghead := pkghead, got_match := 0, match_fn := match_by_basename, cookie := pkgbase }
    simp only [add_installed_pkgs_by_basename, iterate_pkg_db_of_open _ _ _ _ _ hopen, hrun,
      hclose, Option.map_some']
    simp only [Bool.false_eq_true, if_false]
    rw [if_neg (by decide)]
    refine ⟨_, _, _, rfl, ?_, ?_⟩
    · intro hex
      rw [h2 hex]
      rfl
    · intro hno
      rw [h3 hno]
      rfl
  · intro w0 fuel0 r l w1 h
    simp only [add_installed_pkgs_by_basename] at h
    cases hit : iterate_pkg_db (match_and_add alloc_lpkg)
        { pkghead := pkghead, got_match := 0, match_fn := match_by_basename, cookie := pkgbase }
        w0 fuel0 with
    | none => rw [hit] at h; simp at h
    | some x =>
      obtain ⟨r0, arg, w2⟩ := x
      rw [hit] at h
      simp only at h
      by_cases hr0 : r0 = -1
      · rw [if_pos hr0] at h
        simp only [Option.some.injEq, Prod.mk.injEq] at h
        exact Or.inl h.1.symm
      · rw [if_neg hr0] at h
        simp only [Option.some.injEq, Prod.mk.injEq] at h
        have hgm : arg.got_match = 0 ∨ arg.got_match = 1 := by
          cases hd : w0.dirs w0.pkgdb_dir with
          | none =>
            rw [iterate_pkg_db_of_open_failed _ _ _ _ hd] at hit
            simp only [Option.some.injEq, Prod.mk.injEq] at hit
            rw [← hit.2.1]
            exact Or.inl rfl
          | some dir0 =>
            rw [iterate_pkg_db_of_open _ _ _ _ _ hd] at hit
            cases hg : iterate_pkg_generic_src (match_and_add alloc_lpkg)
                { pkghead := pkghead, got_match := 0, match_fn := match_by_basename,
                  cookie := pkgbase } pkg_db_iter dir0 fuel0 with
            | none => rw [hg] at hit; simp at hit
            | some y =>
              obtain ⟨r1, arg1, d1⟩ := y
              rw [hg] at hit
              simp only [Option.map_some', Option.some.injEq, Prod.mk.injEq] at hit
              rw [← hit.2.1]
              exact iterate_loop_preserves (match_and_add alloc_lpkg) pkg_db_iter
                (fun a => a.got_match = 0 ∨ a.got_match = 1)
                (fun e m hm => match_and_add_got_match alloc_lpkg e m hm)
                fuel0 0 _ dir0 r1 arg1 d1 (Or.inl rfl) hg
        rcases hgm with hg | hg
        · exact Or.inr (Or.inl (by rw [← h.1, hg]; rfl))
        · exact Or.inr (Or.inr (by rw [← h.1, hg]; rfl))

/-- C5 (witness): the sample database and basename foo. -/
theorem add_installed_pkgs_by_basename_result_witness :
    (∃ r l w1, add_installed_pkgs_by_basename id "foo".toList [] (sample_world sample_db false) 7
        = some (r, l, w1) ∧
      ((∃ e ∈ pkg_db_names sample_db, match_by_basename e "foo".toList = 1) → r = 1) ∧
      ((¬ ∃ e ∈ pkg_db_names sample_db, match_by_basename e "foo".toList = 1) → r = 0)) ∧
    (∀ (w0 : World) (fuel0 : Nat) (r : Int) (l : List CStr) (w1 : World),
      add_installed_pkgs_by_basename id "foo".toList [] w0 fuel0 = some (r, l, w1) →
        r = -1 ∨ r = 0 ∨ r = 1) :=
  add_installed_pkgs_by_basename_result id "foo".toList [] (sample_world sample_db false)
    sample_db (pkg_db_names sample_db) [] 7 (by decide) rfl (yields_pkg_db_iter sample_db)
    (by decide)

/-! ### Best-match selection -/

theorem iterate_pkg_generic_src_of_quiet (matchiter : CStr → μ → Int × μ) (mc : μ)
    (srciter : σ → Option CStr × σ) (sc s1 : σ) (es : List CStr) (fuel : Nat)
    (hsrc : Yields srciter sc es s1) (hfuel : es.length < fuel)
    (hq : quiet matchiter mc es) :
    iterate_pkg_generic_src matchiter mc srciter sc fuel
      = some (0, cookie_after matchiter mc es, s1) := by
  obtain ⟨sl, hp, hend⟩ := hsrc
  rcases iterate_loop_run matchiter srciter hp hend fuel mc hfuel with
    ⟨-, hrun⟩ | ⟨pre, e, post, sm, hes, -, hne, -, -⟩
  · exact hrun
  · exact absurd (hq pre e post hes) hne

theorem best_fold_cons (pkg_order : CStr → CStr → Option CStr → Int) (pattern : CStr)
    (acc : Option CStr) (c : CStr) (es : List CStr) :
    best_fold pkg_order pattern acc (c :: es)
      = best_fold pkg_order pattern (if pkg_order pattern c acc = 1 then some c else acc) es :=
  rfl

theorem best_fold_snoc (pkg_order : CStr → CStr → Option CStr → Int) (pattern : CStr)
    (acc : Option CStr) (es : List CStr) (c : CStr) :
    best_fold pkg_order pattern acc (es ++ [c])
      = if pkg_order pattern c (best_fold pkg_order pattern acc es) = 1 then some c
        else best_fold pkg_order pattern acc es := by
  simp [best_fold, List.foldl_append]

theorem snoc_eq_append_cons {α : Type} (es pre post : List α) (c x : α)
    (h : es ++ [c] = pre ++ x :: post) :
    (post = [] ∧ pre = es ∧ x = c) ∨ ∃ post1, post = post1 ++ [c] ∧ es = pre ++ x :: post1 := by
  rcases List.eq_nil_or_concat post with rfl | ⟨post1, y, rfl⟩
  · have h2 := List.append_inj' h rfl
    simp only [List.cons.injEq, and_true] at h2
    exact Or.inl ⟨rfl, h2.1.symm, h2.2.symm⟩
  · have h1 : es ++ [c] = (pre ++ x :: post1) ++ [y] := by simpa using h
    have h2 := List.append_inj' h1 rfl
    simp only [List.cons.injEq, and_true] at h2
    exact Or.inr ⟨post1, by rw [h2.2]; simp, h2.1⟩

/-- The fold is empty when the ordering function never returned 1, and
otherwise holds the last candidate on which it returned 1. -/
theorem best_fold_last (pkg_order : CStr → CStr → Option CStr → Int) (pattern : CStr)
    (es : List CStr) :
    (best_fold pkg_order pattern none es = none ∧
      ∀ pre c post, es = pre ++ c :: post →
        pkg_order pattern c (best_fold pkg_order pattern none pre) ≠ 1) ∨
    (∃ pre name post, es = pre ++ name :: post ∧
      pkg_order pattern name (best_fold pkg_order pattern none pre) = 1 ∧
      (∀ p2 c q2, post = p2 ++ c :: q2 →
        pkg_order pattern c (best_fold pkg_order pattern none (pre ++ name :: p2)) ≠ 1) ∧
      best_fold pkg_order pattern none es = some name) := by
  induction es using List.reverseRecOn with
  | nil =>
    left
    refine ⟨rfl, ?_⟩
    intro pre c post h
    cases pre <;> simp at h
  | append_singleton es c ih =>
    by_cases hc : pkg_order pattern c (best_fold pkg_order pattern none es) = 1
    · right
      refine ⟨es, c, [], rfl, hc, ?_, by rw [best_fold_snoc, if_pos hc]⟩
      intro p2 x q2 h
      cases p2 <;> simp at h
    · rcases ih with ⟨hnone, hnever⟩ | ⟨pre, name, post, hes, h1, hafter, hsome⟩
      · left
        refine ⟨by rw [best_fold_snoc, if_neg hc]; exact hnone, ?_⟩
        intro pre x post h
        rcases snoc_eq_append_cons es pre post c x h with ⟨-, rfl, rfl⟩ | ⟨post1, -, hes⟩
        · exact hc
        · exact hnever pre x post1 hes
      · right
        refine ⟨pre, name, post ++ [c], by simp [hes], h1, ?_,
          by rw [best_fold_snoc, if_neg hc]; exact hsome⟩
        intro p2 x q2 h
        rcases snoc_eq_append_cons post p2 q2 c x h with ⟨-, rfl, rfl⟩ | ⟨q3, -, hpost⟩
        · rw [← hes]
          exact hc
        · exact hafter p2 x q3 hpost

theorem strdup_of_no_oom (h : Heap) (s : CStr) (hoom : ∀ b ∈ h.oom, b = false) :
    strdup h s
      = (some h.next,
          { live := (h.next, s) :: h.live, next := h.next + 1, oom := h.oom.tail }) := by
  unfold strdup
  split
  · rename_i rest heq
    exact absurd (hoom true (by rw [heq]; simp)) (by decide)
  · rfl

theorem free_oom (h : Heap) (p : Option Nat) : (free h p).oom = h.oom := by
  cases p <;> rfl

/-- One call of `match_best_installed` when no allocation fails: it returns
0, keeps the pattern, and the accumulator afterwards holds the candidate if
the ordering function returned 1 and what it held before otherwise. -/
theorem match_best_installed_step (pkg_order : CStr → CStr → Option CStr → Int) (pkg : CStr)
    (pattern : CStr) (p : Option Nat) (h : Heap) (hoom : ∀ b ∈ h.oom, b = false)
    (hval : h.read p = none → p = none) :
    (match_best_installed pkg_order pkg (⟨pattern, p⟩, h)).1 = 0 ∧
    ∃ p1 h1, (match_best_installed pkg_order pkg (⟨pattern, p⟩, h)).2 = (⟨pattern, p1⟩, h1) ∧
      (∀ b ∈ h1.oom, b = false) ∧ (h1.read p1 = none → p1 = none) ∧
      h1.read p1 = (if pkg_order pattern pkg (h.read p) = 1 then some pkg else h.read p) := by
  by_cases h1 : pkg_order pattern pkg (h.read p) = 1
  · have hne : ¬ (pkg_order pattern pkg (h.read p) = 0 ∨ pkg_order pattern pkg (h.read p) = 2) := by
      rw [h1]; decide
    have hfree : ∀ b ∈ (free h p).oom, b = false := by rw [free_oom]; exact hoom
    have hrd : ∀ (l : List (Nat × CStr)) (n : Nat) (o : List Bool),
        Heap.read ⟨(n, pkg) :: l, n + 1, o⟩ (some n) = some pkg := by
      intro l n o
      simp [Heap.read, List.lookup]
    simp only [match_best_installed, hne, h1, if_true, if_false,
      strdup_of_no_oom _ pkg hfree]
    refine ⟨rfl, _, _, rfl, ?_, ?_, ?_⟩
    · intro b hb
      exact hfree b (List.mem_of_mem_tail hb)
    · intro hnone
      rw [hrd] at hnone
      exact absurd hnone (by simp)
    · exact hrd _ _ _
  · by_cases h02 : pkg_order pattern pkg (h.read p) = 0 ∨ pkg_order pattern pkg (h.read p) = 2
    · have hm : match_best_installed pkg_order pkg (⟨pattern, p⟩, h) = (0, (⟨pattern, p⟩, h)) := by
        simp only [match_best_installed, h02, if_true]
      rw [hm, if_neg h1]
      exact ⟨rfl, p, h, rfl, hoom, hval, rfl⟩
    · have hm : match_best_installed pkg_order pkg (⟨pattern, p⟩, h) = (0, (⟨pattern, p⟩, h)) := by
        simp only [match_best_installed, h02, h1, if_false]
      rw [hm, if_neg h1]
      exact ⟨rfl, p, h, rfl, hoom, hval, rfl⟩

/-- A run of `match_best_installed` over `es` when no allocation fails:
every call returns 0 and the accumulator ends up holding the fold. -/
theorem match_best_installed_run (pkg_order : CStr → CStr → Option CStr → Int)
    (pattern : CStr) (es : List CStr) :
    ∀ (p : Option Nat) (h : Heap), (∀ b ∈ h.oom, b = false) → (h.read p = none → p = none) →
      quiet (match_best_installed pkg_order) (⟨pattern, p⟩, h) es ∧
      ∃ p1 h1, cookie_after (match_best_installed pkg_order) (⟨pattern, p⟩, h) es
          = (⟨pattern, p1⟩, h1) ∧
        (∀ b ∈ h1.oom, b = false) ∧ (h1.read p1 = none → p1 = none) ∧
        h1.read p1 = best_fold pkg_order pattern (h.read p) es := by
  induction es with
  | nil =>
    intro p h hoom hval
    exact ⟨quiet_nil _ _, p, h, rfl, hoom, hval, rfl⟩
  | cons c es ih =>
    intro p h hoom hval
    obtain ⟨h0, p1, h1, hst, hoom1, hval1, hrd1⟩ :=
      match_best_installed_step pkg_order c pattern p h hoom hval
    obtain ⟨hq, p2, h2, hca, hoom2, hval2, hrd2⟩ := ih p1 h1 hoom1 hval1
    refine ⟨(quiet_cons _ _ _ _).2 ⟨h0, by rw [hst]; exact hq⟩, p2, h2, ?_, hoom2, hval2, ?_⟩
    · rw [cookie_after_cons, hst, hca]
    · rw [hrd2, hrd1, best_fold_cons]

/-- C7: when the package database directory opens and closes successfully,
no `strdup` fails and `es` is what the adapter yields, then (with fuel for
the loop) `find_best_matching_installed_pkg` returns a pointer whose string
is the left-to-right fold of `es` from the empty accumulator that replaces
the accumulator by the candidate exactly when `pkg_order` returns 1 on
(pattern, candidate, accumulator). The pointer is `NULL` exactly when
`pkg_order` never returned 1; otherwise it points to a copy of the last
yielded entry on which `pkg_order` returned 1, which is one of `es`. -/
theorem find_best_matching_installed_pkg_fold (pkg_order : CStr → CStr → Option CStr → Int)
    (pattern : CStr) (h : Heap) (w : World) (dir : List dirent) (es : List CStr) (dend : DIR)
    (fuel : Nat) (hopen : w.dirs w.pkgdb_dir = some dir) (hclose : w.closedir_fails = false)
    (hoom : ∀ b ∈ h.oom, b = false) (hy : Yields pkg_db_iter dir es dend)
    (hfuel : es.length < fuel) :
    ∃ p h1 w1, find_best_matching_installed_pkg pkg_order pattern h w fuel = some (p, h1, w1) ∧
      h1.read p = best_fold pkg_order pattern none es ∧
      (p = none ↔ ∀ pre c post, es = pre ++ c :: post →
        pkg_order pattern c (best_fold pkg_order pattern none pre) ≠ 1) ∧
      (∀ name, h1.read p = some name →
        name ∈ es ∧ ∃ pre post, es = pre ++ name :: post ∧
          pkg_order pattern name (best_fold pkg_order pattern none pre) = 1 ∧
          ∀ p2 c q2, post = p2 ++ c :: q2 →
            pkg_order pattern c (best_fold pkg_order pattern none (pre ++ name :: p2)) ≠ 1) := by
  obtain ⟨hq, p1, h1, hca, -, hval1, hrd⟩ :=
    match_best_installed_run pkg_order pattern es none h hoom (fun _ => rfl)
  have hrun := iterate_pkg_generic_src_of_quiet (match_best_installed pkg_order)
    (⟨pattern, none⟩, h) pkg_db_iter dir dend es fuel hy hfuel hq
  have hrd0 : h1.read p1 = best_fold pkg_order pattern none es := by
    rw [hrd]
    rfl
  have hfind : ∃ w1, find_best_matching_installed_pkg pkg_order pattern h w fuel
      = some (p1, h1, w1) := by
    simp only [find_best_matching_installed_pkg, iterate_pkg_db_of_open _ _ _ _ _ hopen, hrun,
      hclose, Option.map_some', hca]
    simp only [Bool.false_eq_true, if_false]
    rw [if_neg (by decide)]
    exact ⟨_, rfl⟩
  obtain ⟨w1, hfind⟩ := hfind
  refine ⟨p1, h1, w1, hfind, hrd0, ?_, ?_⟩
  · rcases best_fold_last pkg_order pattern es with
      ⟨hnone, hnever⟩ | ⟨pre, name, post, hes, hone, -, hsome⟩
    · exact ⟨fun _ => hnever, fun _ => hval1 (by rw [hrd0, hnone])⟩
    · constructor
      · intro hp
        rw [hp, hsome] at hrd0
        simp [Heap.read] at hrd0
      · intro hnever
        exact absurd hone (hnever pre name post hes)
  · intro name hname
    rcases best_fold_last pkg_order pattern es with
      ⟨hnone, -⟩ | ⟨pre, name1, post, hes, hone, hafter, hsome⟩
    · rw [hrd0, hnone] at hname
      simp at hname
    · rw [hrd0, hsome] at hname
      simp only [Option.some.injEq] at hname
      subst hname
      exact ⟨by rw [hes]; simp, pre, post, hes, hone, hafter⟩

/-- C7 (witness): the sample database, pattern `foo-*` and the sample
ordering that prefers the higher version. -/
theorem find_best_matching_installed_pkg_fold_witness :
    ∃ p h1 w1, find_best_matching_installed_pkg sample_pkg_order "foo-*".toList (sample_heap [])
        (sample_world sample_db false) 7 = some (p, h1, w1) ∧
      h1.read p = best_fold sample_pkg_order "foo-*".toList none (pkg_db_names sample_db) ∧
      (p = none ↔ ∀ pre c post, pkg_db_names sample_db = pre ++ c :: post →
        sample_pkg_order "foo-*".toList c
          (best_fold sample_pkg_order "foo-*".toList none pre) ≠ 1) ∧
      (∀ name, h1.read p = some name →
        name ∈ pkg_db_names sample_db ∧ ∃ pre post, pkg_db_names sample_db = pre ++ name :: post ∧
          sample_pkg_order "foo-*".toList name
            (best_fold sample_pkg_order "foo-*".toList none pre) = 1 ∧
          ∀ p2 c q2, post = p2 ++ c :: q2 →
            sample_pkg_order "foo-*".toList c
              (best_fold sample_pkg_order "foo-*".toList none (pre ++ name :: p2)) ≠ 1) :=
  find_best_matching_installed_pkg_fold sample_pkg_order "foo-*".toList (sample_heap [])
    (sample_world sample_db false) sample_db (pkg_db_names sample_db) [] 7 (by decide) rfl
    (by decide) (yields_pkg_db_iter sample_db) (by decide)

/-- The scenario of the specification, evaluated: on the sample database,
pattern `foo-*` with the ordering that prefers the higher version gives a
pointer to `foo-2.0`, and that block is the only live one. -/
theorem scenario_find_best :
    (find_best_matching_installed_pkg sample_pkg_order "foo-*".toList (sample_heap [])
        (sample_world sample_db false) 7).map (fun x => (x.2.1.read x.1, x.2.1.live))
      = some (some "foo-2.0".toList, [(1, "foo-2.0".toList)]) := by
  decide

/-- What `find_best_matching_installed_pkg` does when the directory opens
and no `strdup` fails: the loop ends with the accumulator holding the fold,
and the accumulator is returned unless `closedir` fails. -/
theorem find_best_matching_installed_pkg_run (pkg_order : CStr → CStr → Option CStr → Int)
    (pattern : CStr) (h : Heap) (w : World) (dir : List dirent) (es : List CStr) (dend : DIR)
    (fuel : Nat) (hopen : w.dirs w.pkgdb_dir = some dir) (hoom : ∀ b ∈ h.oom, b = false)
    (hy : Yields pkg_db_iter dir es dend) (hfuel : es.length < fuel) :
    ∃ p1 h1, find_best_matching_installed_pkg pkg_order pattern h w fuel
        = some (if w.closedir_fails = true then none else p1, h1, after_pkgdb_scan w) ∧
      h1.read p1 = best_fold pkg_order pattern none es ∧ (h1.read p1 = none → p1 = none) := by
  obtain ⟨hq, p1, h1, hca, -, hval1, hrd⟩ :=
    match_best_installed_run pkg_order pattern es none h hoom (fun _ => rfl)
  have hrun := iterate_pkg_generic_src_of_quiet (match_best_installed pkg_order)
    (⟨pattern, none⟩, h) pkg_db_iter dir dend es fuel hy hfuel hq
  refine ⟨p1, h1, ?_, by rw [hrd]; rfl, hval1⟩
  simp only [find_best_matching_installed_pkg, iterate_pkg_db_of_open _ _ _ _ _ hopen, hrun,
    Option.map_some', hca]
  cases hcf : w.closedir_fails
  · simp only [Bool.false_eq_true, if_false]
    rw [if_neg (by decide)]
  · simp only [if_true]

/-- Under the contract of the ordering function the fold is empty when no
candidate matches, and otherwise holds a matching candidate that is at least
as good as every matching candidate. -/
theorem best_fold_max (pkg_order : CStr → CStr → Option CStr → Int) (pattern : CStr)
    (isMatch : CStr → Prop) (le : CStr → CStr → Prop)
    (hc : OrderContract pkg_order pattern isMatch le) (es : List CStr) :
    (best_fold pkg_order pattern none es = none → ∀ x ∈ es, ¬ isMatch x) ∧
    (∀ m, best_fold pkg_order pattern none es = some m →
      isMatch m ∧ m ∈ es ∧ ∀ x ∈ es, isMatch x → le x m) := by
  induction es using List.reverseRecOn with
  | nil =>
    refine ⟨fun _ x hx => by simp at hx, fun m hm => ?_⟩
    simp [best_fold] at hm
  | append_singleton es c ih =>
    obtain ⟨ih1, ih2⟩ := ih
    rw [best_fold_snoc]
    cases hb : best_fold pkg_order pattern none es with
    | none =>
      have hno := ih1 hb
      by_cases hm : isMatch c
      · rw [if_pos ((hc.on_empty c).2 hm)]
        refine ⟨fun h => by simp at h, fun m hmm => ?_⟩
        simp only [Option.some.injEq] at hmm
        subst hmm
        refine ⟨hm, by simp, fun x hx hxm => ?_⟩
        rcases List.mem_append.1 hx with hx | hx
        · exact absurd hxm (hno x hx)
        · simp only [List.mem_singleton] at hx
          subst hx
          exact hc.le_refl x
      · rw [if_neg (fun h => hm ((hc.on_empty c).1 h))]
        refine ⟨fun _ x hx => ?_, fun m hmm => by simp at hmm⟩
        rcases List.mem_append.1 hx with hx | hx
        · exact hno x hx
        · simp only [List.mem_singleton] at hx
          subst hx
          exact hm
    | some b =>
      obtain ⟨hbm, hbmem, hbmax⟩ := ih2 b hb
      by_cases hbetter : isMatch c ∧ ¬ le c b
      · rw [if_pos ((hc.on_best c b hbm).2 hbetter)]
        refine ⟨fun h => by simp at h, fun m hmm => ?_⟩
        simp only [Option.some.injEq] at hmm
        subst hmm
        have hbc : le b c := (hc.le_total c b).resolve_left hbetter.2
        refine ⟨hbetter.1, by simp, fun x hx hxm => ?_⟩
        rcases List.mem_append.1 hx with hx | hx
        · exact hc.le_trans x b c (hbmax x hx hxm) hbc
        · simp only [List.mem_singleton] at hx
          subst hx
          exact hc.le_refl x
      · rw [if_neg (fun h => hbetter ((hc.on_best c b hbm).1 h))]
        refine ⟨fun h => by simp at h, fun m hmm => ?_⟩
        simp only [Option.some.injEq] at hmm
        subst hmm
        refine ⟨hbm, by simp [hbmem], fun x hx hxm => ?_⟩
        rcases List.mem_append.1 hx with hx | hx
        · exact hbmax x hx hxm
        · simp only [List.mem_singleton] at hx
          subst hx
          by_contra hle
          exact hbetter ⟨hxm, hle⟩

/-- With an ordering in which no two distinct matching names are tied, the
fold does not depend on the order of the candidates. -/
theorem best_fold_perm (pkg_order : CStr → CStr → Option CStr → Int) (pattern : CStr)
    (isMatch : CStr → Prop) (le : CStr → CStr → Prop)
    (hc : OrderContract pkg_order pattern isMatch le)
    (hanti : ∀ a b, isMatch a → isMatch b → le a b → le b a → a = b)
    (es1 es2 : List CStr) (hperm : es1.Perm es2) :
    best_fold pkg_order pattern none es1 = best_fold pkg_order pattern none es2 := by
  obtain ⟨a1, a2⟩ := best_fold_max pkg_order pattern isMatch le hc es1
  obtain ⟨b1, b2⟩ := best_fold_max pkg_order pattern isMatch le hc es2
  cases h1 : best_fold pkg_order pattern none es1 with
  | none =>
    cases h2 : best_fold pkg_order pattern none es2 with
    | none => rfl
    | some m2 =>
      obtain ⟨hm, hmem, -⟩ := b2 m2 h2
      exact absurd hm (a1 h1 m2 (hperm.mem_iff.2 hmem))
  | some m1 =>
    obtain ⟨hm1, hmem1, hmax1⟩ := a2 m1 h1
    cases h2 : best_fold pkg_order pattern none es2 with
    | none => exact absurd hm1 (b1 h2 m1 (hperm.mem_iff.1 hmem1))
    | some m2 =>
      obtain ⟨hm2, hmem2, hmax2⟩ := b2 m2 h2
      have h12 : le m1 m2 := hmax2 m1 (hperm.mem_iff.1 hmem1) hm1
      have h21 : le m2 m1 := hmax1 m2 (hperm.mem_iff.2 hmem2) hm2
      rw [hanti m1 m2 hm1 hm2 h12 h21]

theorem length_pkg_order_contract (pattern : CStr) :
    OrderContract length_pkg_order pattern (fun c => sample_pkg_match pattern c = 1)
      (fun a b => a.length ≤ b.length) where
  le_refl := fun a => Nat.le_refl _
  le_trans := fun _ _ _ h1 h2 => Nat.le_trans h1 h2
  le_total := fun a b => Nat.le_total _ _
  on_empty := by
    intro c
    by_cases hm : sample_pkg_match pattern c = 1 <;> simp [length_pkg_order, hm]
  on_best := by
    intro c b _
    by_cases hm : sample_pkg_match pattern c = 1
    · by_cases hl : b.length < c.length
      · simp [length_pkg_order, hm, hl]
      · simp only [length_pkg_order, hm, ne_eq, not_true_eq_false, if_false, hl, true_and,
          not_le]
        decide
    · simp [length_pkg_order, hm]

/-- C6 (counterexample): the result depends on the enumeration order.
First, `length_pkg_order` meets the contract of the ordering function for a
total preorder (the longer name is better) in which foo-1.0 and foo-2.0 are
tied: on the listing foo-1.0, foo-2.0 the result is foo-1.0, on the permuted
listing foo-2.0, foo-1.0 it is foo-2.0. Second, with the tie-free
`sample_pkg_order` and a heap whose second allocation fails, the first
listing gives `NULL` (two duplications, the second fails) and the permuted
one gives foo-2.0 (one duplication). -/
theorem find_best_matching_installed_pkg_order_dependent :
    OrderContract length_pkg_order "foo-*".toList
      (fun c => sample_pkg_match "foo-*".toList c = 1) (fun a b => a.length ≤ b.length) ∧
    sample_db_12.Perm sample_db_21 ∧
    (find_best_matching_installed_pkg length_pkg_order "foo-*".toList (sample_heap [])
        (sample_world sample_db_12 false) 3).map (fun x => x.2.1.read x.1)
      = some (some "foo-1.0".toList) ∧
    (find_best_matching_installed_pkg length_pkg_order "foo-*".toList (sample_heap [])
        (sample_world sample_db_21 false) 3).map (fun x => x.2.1.read x.1)
      = some (some "foo-2.0".toList) ∧
    (find_best_matching_installed_pkg sample_pkg_order "foo-*".toList (sample_heap [false, true])
        (sample_world sample_db_12 false) 3).map (fun x => x.2.1.read x.1)
      = some none ∧
    (find_best_matching_installed_pkg sample_pkg_order "foo-*".toList (sample_heap [false, true])
        (sample_world sample_db_21 false) 3).map (fun x => x.2.1.read x.1)
      = some (some "foo-2.0".toList) :=
  ⟨length_pkg_order_contract _, List.Perm.swap _ _ _, by decide, by decide, by decide,
    by decide⟩

/-- C6 (amended): let the ordering function meet its contract for a total
preorder in which no two distinct matching names are tied, and let no
`strdup` fail. Then for two environments whose package database listings are
permutations of each other (and in which `closedir` behaves alike),
`find_best_matching_installed_pkg` returns on both, with the same string:
both pointers are `NULL` or both point to equal strings. -/
theorem find_best_matching_installed_pkg_perm (pkg_order : CStr → CStr → Option CStr → Int)
    (pattern : CStr) (isMatch : CStr → Prop) (le : CStr → CStr → Prop)
    (hc : OrderContract pkg_order pattern isMatch le)
    (hanti : ∀ a b, isMatch a → isMatch b → le a b → le b a → a = b)
    (h : Heap) (hoom : ∀ b ∈ h.oom, b = false) (w1 w2 : World) (dir1 dir2 : List dirent)
    (fuel : Nat) (hopen1 : w1.dirs w1.pkgdb_dir = some dir1)
    (hopen2 : w2.dirs w2.pkgdb_dir = some dir2)
    (hclose : w1.closedir_fails = w2.closedir_fails) (hperm : dir1.Perm dir2)
    (hfuel : dir1.length < fuel) :
    ∃ p1 h1 v1 p2 h2 v2,
      find_best_matching_installed_pkg pkg_order pattern h w1 fuel = some (p1, h1, v1) ∧
      find_best_matching_installed_pkg pkg_order pattern h w2 fuel = some (p2, h2, v2) ∧
      h1.read p1 = h2.read p2 ∧ (p1 = none ↔ p2 = none) := by
  have hlen1 : (pkg_db_names dir1).length < fuel := by
    have : (pkg_db_names dir1).length ≤ dir1.length := by
      simp only [pkg_db_names, List.length_map]
      exact List.length_filter_le _ _
    omega
  have hpn : (pkg_db_names dir1).Perm (pkg_db_names dir2) :=
    (hperm.filter _).map _
  have hlen2 : (pkg_db_names dir2).length < fuel := by rw [← hpn.length_eq]; exact hlen1
  obtain ⟨p1, h1, hf1, hr1, hv1⟩ := find_best_matching_installed_pkg_run pkg_order pattern
    h w1 dir1 _ _ fuel hopen1 hoom (yields_pkg_db_iter dir1) hlen1
  obtain ⟨p2, h2, hf2, hr2, hv2⟩ := find_best_matching_installed_pkg_run pkg_order pattern
    h w2 dir2 _ _ fuel hopen2 hoom (yields_pkg_db_iter dir2) hlen2
  have hbf := best_fold_perm pkg_order pattern isMatch le hc hanti _ _ hpn
  have hrd : h1.read p1 = h2.read p2 := by rw [hr1, hr2, hbf]
  refine ⟨_, h1, _, _, h2, _, hf1, hf2, ?_, ?_⟩
  · rw [← hclose]
    cases w1.closedir_fails
    · simpa using hrd
    · simp [Heap.read]
  · rw [← hclose]
    cases w1.closedir_fails
    · simp only [Bool.false_eq_true, if_false]
      constructor
      · intro hp
        apply hv2
        rw [← hrd, hp]
        rfl
      · intro hp
        apply hv1
        rw [hrd, hp]
        rfl
    · simp

theorem sample_pkg_order_contract (pattern : CStr) :
    OrderContract sample_pkg_order pattern (fun c => sample_pkg_match pattern c = 1)
      (fun a b => a ≤ b) where
  le_refl := fun a => le_refl a
  le_trans := fun _ _ _ h1 h2 => le_trans h1 h2
  le_total := fun a b => le_total a b
  on_empty := by
    intro c
    by_cases hm : sample_pkg_match pattern c = 1 <;> simp [sample_pkg_order, hm]
  on_best := by
    intro c b _
    by_cases hm : sample_pkg_match pattern c = 1
    · by_cases hl : b < c
      · simp [sample_pkg_order, hm, hl]
      · simp only [sample_pkg_order, hm, ne_eq, not_true_eq_false, if_false, hl, true_and,
          not_le]
        decide
    · simp [sample_pkg_order, hm]

/-- C6 (witness of the amended statement): the tie-free sample ordering on
the listing foo-1.0, foo-2.0 and on its permutation. -/
theorem find_best_matching_installed_pkg_perm_witness :
    ∃ p1 h1 v1 p2 h2 v2,
      find_best_matching_installed_pkg sample_pkg_order "foo-*".toList (sample_heap [])
        (sample_world sample_db_12 false) 3 = some (p1, h1, v1) ∧
      find_best_matching_installed_pkg sample_pkg_order "foo-*".toList (sample_heap [])
        (sample_world sample_db_21 false) 3 = some (p2, h2, v2) ∧
      h1.read p1 = h2.read p2 ∧ (p1 = none ↔ p2 = none) :=
  find_best_matching_installed_pkg_perm sample_pkg_order "foo-*".toList
    (fun c => sample_pkg_match "foo-*".toList c = 1) (fun a b => a ≤ b)
    (sample_pkg_order_contract _) (fun _ _ _ _ h1 h2 => le_antisymm h1 h2)
    (sample_heap []) (by decide) (sample_world sample_db_12 false)
    (sample_world sample_db_21 false) sample_db_12 sample_db_21 3 (by decide) (by decide) rfl
    (List.Perm.swap _ _ _) (by decide)

/-! ### Invoke-per-match -/

/-- The first stopping call along a sequence is determined. -/
theorem first_stop_unique (matchiter : CStr → μ → Int × μ) (mc : μ)
    (pre1 pre2 post1 post2 : List CStr) (e1 e2 : CStr)
    (hes : pre1 ++ e1 :: post1 = pre2 ++ e2 :: post2)
    (hq1 : quiet matchiter mc pre1) (hq2 : quiet matchiter mc pre2)
    (hne1 : result_after matchiter mc pre1 e1 ≠ 0)
    (hne2 : result_after matchiter mc pre2 e2 ≠ 0) : pre1 = pre2 ∧ e1 = e2 := by
  rcases List.append_eq_append_iff.1 hes with ⟨a, h1, h2⟩ | ⟨a, h1, h2⟩
  · cases a with
    | nil =>
      simp only [List.nil_append, List.cons.injEq] at h2
      exact ⟨by simpa using h1.symm, h2.1⟩
    | cons x a =>
      simp only [List.cons_append, List.cons.injEq] at h2
      exact absurd (hq2 pre1 e1 a (by rw [h1, h2.1])) hne1
  · cases a with
    | nil =>
      simp only [List.nil_append, List.cons.injEq] at h2
      exact ⟨by simpa using h1, h2.1.symm⟩
    | cons x a =>
      simp only [List.cons_append, List.cons.injEq] at h2
      exact absurd (hq1 pre2 e2 a (by rw [h1, h2.1])) hne2

theorem cookie_after_match_and_call (pkg_match : CStr → CStr → Int) (pattern : CStr)
    (cb : CStr → κ → Int × κ) (es : List CStr) :
    ∀ k : κ, cookie_after (match_and_call pkg_match) ⟨pattern, cb, k⟩ es
      = ⟨pattern, cb,
          cookie_after cb k (es.filter (fun e => decide (pkg_match pattern e = 1)))⟩ := by
  induction es with
  | nil => intro k; rfl
  | cons x es ih =>
    intro k
    rw [cookie_after_cons]
    by_cases hx : pkg_match pattern x = 1
    · have hstep : (match_and_call pkg_match x ⟨pattern, cb, k⟩).2
          = ⟨pattern, cb, (cb x k).2⟩ := by
        simp [match_and_call, hx]
      rw [hstep, ih]
      simp [List.filter_cons, hx, cookie_after_cons]
    · have hstep : (match_and_call pkg_match x ⟨pattern, cb, k⟩).2 = ⟨pattern, cb, k⟩ := by
        simp [match_and_call, hx]
      rw [hstep, ih]
      simp [List.filter_cons, hx]

theorem result_after_match_and_call (pkg_match : CStr → CStr → Int) (pattern : CStr)
    (cb : CStr → κ → Int × κ) (k : κ) (pre : List CStr) (e : CStr) :
    result_after (match_and_call pkg_match) ⟨pattern, cb, k⟩ pre e
      = if pkg_match pattern e = 1 then
          result_after cb k (pre.filter (fun e => decide (pkg_match pattern e = 1))) e
        else 0 := by
  simp only [result_after, cookie_after_match_and_call, match_and_call]
  split <;> rfl

theorem quiet_match_and_call (pkg_match : CStr → CStr → Int) (pattern : CStr)
    (cb : CStr → κ → Int × κ) (es : List CStr) :
    ∀ k : κ, quiet (match_and_call pkg_match) ⟨pattern, cb, k⟩ es
      ↔ quiet cb k (es.filter (fun e => decide (pkg_match pattern e = 1))) := by
  induction es with
  | nil => intro k; simp [quiet_nil]
  | cons x es ih =>
    intro k
    rw [quiet_cons]
    by_cases hx : pkg_match pattern x = 1
    · have hstep : match_and_call pkg_match x ⟨pattern, cb, k⟩
          = ((cb x k).1, ⟨pattern, cb, (cb x k).2⟩) := by
        simp [match_and_call, hx]
      rw [hstep]
      simp only [List.filter_cons, hx, decide_True, if_true]
      rw [quiet_cons, ih]
    · have hstep : match_and_call pkg_match x ⟨pattern, cb, k⟩ = (0, ⟨pattern, cb, k⟩) := by
        simp [match_and_call, hx]
      rw [hstep]
      simp only [List.filter_cons, hx, decide_False, true_and]
      rw [ih]
      simp

/-- What `match_installed_pkgs` does when the directory opens, in terms of
the callback on the yielded entries that match the pattern. -/
theorem match_installed_pkgs_run (pkg_match : CStr → CStr → Int) (pattern : CStr)
    (cb : CStr → κ → Int × κ) (k : κ) (w : World) (dir : List dirent) (es : List CStr)
    (dend : DIR) (fuel : Nat) (hopen : w.dirs w.pkgdb_dir = some dir)
    (hy : Yields pkg_db_iter dir es dend) (hfuel : es.length < fuel) :
    (quiet cb k (es.filter (fun e => decide (pkg_match pattern e = 1))) ∧
      match_installed_pkgs pkg_match pattern cb k w fuel
        = some (if w.closedir_fails = true then -1 else 0,
            cookie_after cb k (es.filter (fun e => decide (pkg_match pattern e = 1))),
            after_pkgdb_scan w)) ∨
    (∃ pre e post, es.filter (fun e => decide (pkg_match pattern e = 1)) = pre ++ e :: post ∧
      quiet cb k pre ∧ result_after cb k pre e ≠ 0 ∧
      match_installed_pkgs pkg_match pattern cb k w fuel
        = some (if w.closedir_fails = true then -1 else result_after cb k pre e,
            cookie_after cb k (pre ++ [e]), after_pkgdb_scan w)) := by
  obtain ⟨sl, hp, hend⟩ := hy
  rcases iterate_loop_run (match_and_call pkg_match) pkg_db_iter hp hend fuel
      ⟨pattern, cb, k⟩ hfuel with
    ⟨hq, hrun⟩ | ⟨pre, e, post, sm, hes, hq, hne, -, hrun⟩
  · left
    refine ⟨(quiet_match_and_call _ _ _ _ _).1 hq, ?_⟩
    simp only [match_installed_pkgs, iterate_pkg_db_of_open _ _ _ _ _ hopen,
      iterate_pkg_generic_src, hrun, Option.map_some', cookie_after_match_and_call]
  · right
    rw [result_after_match_and_call] at hne hrun
    have hm : pkg_match pattern e = 1 := by
      by_contra hm
      rw [if_neg hm] at hne
      exact hne rfl
    rw [if_pos hm] at hne hrun
    refine ⟨pre.filter (fun e => decide (pkg_match pattern e = 1)), e,
      post.filter (fun e => decide (pkg_match pattern e = 1)), ?_,
      (quiet_match_and_call _ _ _ _ _).1 hq, hne, ?_⟩
    · rw [hes]
      simp [List.filter_cons, hm]
    · simp only [match_installed_pkgs, iterate_pkg_db_of_open _ _ _ _ _ hopen,
        iterate_pkg_generic_src, hrun, Option.map_some', cookie_after_match_and_call]
      simp [List.filter_cons, hm]

/-- C8: when the package database directory opens and closes successfully
and `es` is what the adapter yields, then (with fuel for the loop)
`match_installed_pkgs` returns, and the calls of the callback (recorded by
instrumenting it) are made on yielded entries that match the pattern only,
in enumeration order: either every call returned 0, all matching entries
were visited and the result is 0, or the calls stop with the first one that
returned non-zero and the result is that value. The instrumented run
returns what the plain run returns. In particular with no installed package
the result is 0 and the callback is not called, and a callback that returns
1 on its first call is called once and the result is 1. -/
theorem match_installed_pkgs_calls (pkg_match : CStr → CStr → Int) (pattern : CStr)
    (cb : CStr → κ → Int × κ) (k : κ) (w : World) (dir : List dirent) (es : List CStr)
    (dend : DIR) (fuel : Nat) (hopen : w.dirs w.pkgdb_dir = some dir)
    (hclose : w.closedir_fails = false) (hy : Yields pkg_db_iter dir es dend)
    (hfuel : es.length < fuel) :
    ∃ r k1 log w1,
      match_installed_pkgs pkg_match pattern (traced cb) (k, []) w fuel
        = some (r, (k1, log), w1) ∧
      match_installed_pkgs pkg_match pattern cb k w fuel = some (r, k1, w1) ∧
      ((r = 0 ∧ quiet cb k (es.filter (fun e => decide (pkg_match pattern e = 1))) ∧
          log = es.filter (fun e => decide (pkg_match pattern e = 1))) ∨
       (r ≠ 0 ∧ ∃ pre e post,
          es.filter (fun e => decide (pkg_match pattern e = 1)) = pre ++ e :: post ∧
          quiet cb k pre ∧ r = result_after cb k pre e ∧ log = pre ++ [e])) ∧
      (es = [] → r = 0 ∧ log = []) ∧
      (∀ e post, es.filter (fun e => decide (pkg_match pattern e = 1)) = e :: post →
        (cb e k).1 = 1 → r = 1 ∧ log = [e]) := by
  have hmain : ∃ r k1 log w1,
      match_installed_pkgs pkg_match pattern (traced cb) (k, []) w fuel
        = some (r, (k1, log), w1) ∧
      match_installed_pkgs pkg_match pattern cb k w fuel = some (r, k1, w1) ∧
      ((r = 0 ∧ quiet cb k (es.filter (fun e => decide (pkg_match pattern e = 1))) ∧
          log = es.filter (fun e => decide (pkg_match pattern e = 1))) ∨
       (r ≠ 0 ∧ ∃ pre e post,
          es.filter (fun e => decide (pkg_match pattern e = 1)) = pre ++ e :: post ∧
          quiet cb k pre ∧ r = result_after cb k pre e ∧ log = pre ++ [e])) := by
    rcases match_installed_pkgs_run pkg_match pattern (traced cb) (k, []) w dir es dend fuel
        hopen hy hfuel with ⟨hq, hrun⟩ | ⟨pre, e, post, hms, hq, hne, hrun⟩
    · rw [quiet_traced] at hq
      rw [cookie_after_traced, hclose] at hrun
      rcases match_installed_pkgs_run pkg_match pattern cb k w dir es dend fuel
          hopen hy hfuel with ⟨-, hrun2⟩ | ⟨pre, e, post, hms, -, hne, -⟩
      · rw [hclose] at hrun2
        exact ⟨_, _, _, _, hrun, hrun2, Or.inl ⟨by simp, hq, by simp⟩⟩
      · exact absurd (hq pre e post hms) hne
    · rw [quiet_traced] at hq
      rw [result_after_traced] at hne
      rw [cookie_after_traced, result_after_traced, hclose] at hrun
      rcases match_installed_pkgs_run pkg_match pattern cb k w dir es dend fuel
          hopen hy hfuel with ⟨hq2, -⟩ | ⟨pre2, e2, post2, hms2, hq2, hne2, hrun2⟩
      · exact absurd (hq2 pre e post hms) hne
      · obtain ⟨rfl, rfl⟩ := first_stop_unique cb k pre pre2 post post2 e e2
          (by rw [← hms, ← hms2]) hq hq2 hne hne2
        rw [hclose] at hrun2
        refine ⟨_, _, _, _, hrun, hrun2, Or.inr ⟨by simpa using hne, pre, e, post, hms, hq,
          by simp, by simp⟩⟩
  obtain ⟨r, k1, log, w1, h1, h2, h3⟩ := hmain
  refine ⟨r, k1, log, w1, h1, h2, h3, ?_, ?_⟩
  · intro hnil
    subst hnil
    rcases h3 with ⟨hr, -, hlog⟩ | ⟨-, pre, e, post, hms, -⟩
    · exact ⟨hr, by simpa using hlog⟩
    · simp at hms
  · intro e post hms hone
    rcases h3 with ⟨-, hq, -⟩ | ⟨-, pre, e2, post2, hms2, hq, hr, hlog⟩
    · have := hq [] e post (by simpa using hms)
      rw [result_after_nil, hone] at this
      exact absurd this (by decide)
    · cases pre with
      | nil =>
        rw [hms] at hms2
        simp only [List.nil_append, List.cons.injEq] at hms2
        obtain ⟨rfl, -⟩ := hms2
        rw [result_after_nil, hone] at hr
        exact ⟨hr, by simpa using hlog⟩
      | cons x pre =>
        rw [hms] at hms2
        simp only [List.cons_append, List.cons.injEq] at hms2
        obtain ⟨rfl, -⟩ := hms2
        have := hq [] e pre rfl
        rw [result_after_nil, hone] at this
        exact absurd this (by decide)

/-- C8 (witness): the sample database, pattern `foo-*` and the callback that
returns 1 at its first call. -/
theorem match_installed_pkgs_calls_witness :
    ∃ r k1 log w1,
      match_installed_pkgs sample_pkg_match "foo-*".toList (traced sample_cb) (0, [])
        (sample_world sample_db false) 7 = some (r, (k1, log), w1) ∧
      match_installed_pkgs sample_pkg_match "foo-*".toList sample_cb 0
        (sample_world sample_db false) 7 = some (r, k1, w1) ∧
      ((r = 0 ∧ quiet sample_cb 0 ((pkg_db_names sample_db).filter
            (fun e => decide (sample_pkg_match "foo-*".toList e = 1))) ∧
          log = (pkg_db_names sample_db).filter
            (fun e => decide (sample_pkg_match "foo-*".toList e = 1))) ∨
       (r ≠ 0 ∧ ∃ pre e post,
          (pkg_db_names sample_db).filter
            (fun e => decide (sample_pkg_match "foo-*".toList e = 1)) = pre ++ e :: post ∧
          quiet sample_cb 0 pre ∧ r = result_after sample_cb 0 pre e ∧ log = pre ++ [e])) ∧
      (pkg_db_names sample_db = [] → r = 0 ∧ log = []) ∧
      (∀ e post, (pkg_db_names sample_db).filter
          (fun e => decide (sample_pkg_match "foo-*".toList e = 1)) = e :: post →
        (sample_cb e 0).1 = 1 → r = 1 ∧ log = [e]) :=
  match_installed_pkgs_calls sample_pkg_match "foo-*".toList sample_cb 0
    (sample_world sample_db false) sample_db (pkg_db_names sample_db) [] 7 (by decide) rfl
    (yields_pkg_db_iter sample_db) (by decide)

/-- The early-stop scenario of the specification, evaluated: on the sample
database the callback that returns 1 is called once, on foo-1.0, and the
result is 1; on a database with no installed package the result is 0 and the
callback is not called. -/
theorem scenario_invoke_per_match :
    (match_installed_pkgs sample_pkg_match "foo-*".toList (traced sample_cb) (0, [])
        (sample_world sample_db false) 7).map (fun x => (x.1, x.2.1))
      = some (1, (1, ["foo-1.0".toList])) ∧
    (match_installed_pkgs sample_pkg_match "foo-*".toList (traced sample_cb) (0, [])
        (sample_world [⟨['.'], DT_DIR⟩, ⟨['.', '.'], DT_DIR⟩] false) 7).map
          (fun x => (x.1, x.2.1))
      = some (0, (0, [])) := by
  constructor <;> decide

/-! ### Failure of `closedir` and of `opendir` -/

/-- When the directory opens, the loop returns (with fuel for it), and a
failing `closedir` makes `iterate_pkg_db` return -1. -/
theorem iterate_pkg_db_close_failed (matchiter : CStr → μ → Int × μ) (mc : μ) (w : World)
    (dir : List dirent) (es : List CStr) (dend : DIR) (fuel : Nat)
    (hopen : w.dirs w.pkgdb_dir = some dir) (hclose : w.closedir_fails = true)
    (hy : Yields pkg_db_iter dir es dend) (hfuel : es.length < fuel) :
    ∃ r mc1, iterate_pkg_generic_src matchiter mc pkg_db_iter dir fuel = some (r, mc1) ∧
      iterate_pkg_db matchiter mc w fuel = some (-1, mc1.1, after_pkgdb_scan w) := by
  obtain ⟨sl, hp, hend⟩ := hy
  have hret : ∃ x, iterate_pkg_generic_src matchiter mc pkg_db_iter dir fuel = some x := by
    rcases iterate_loop_run matchiter pkg_db_iter hp hend fuel mc hfuel with
      ⟨-, hrun⟩ | ⟨pre, e, post, sm, -, -, -, -, hrun⟩
    · exact ⟨_, hrun⟩
    · exact ⟨_, hrun⟩
  obtain ⟨⟨r, mc1, sc1⟩, hrun⟩ := hret
  refine ⟨r, (mc1, sc1), hrun, ?_⟩
  rw [iterate_pkg_db_of_open _ _ _ _ _ hopen, hrun, hclose]
  rfl

/-- C9: when the package database directory opens but `closedir` fails,
then (with fuel for the loop) `iterate_pkg_db` returns -1 for every match
function, whatever the iteration produced (the value `r` of the generic
iteration is discarded); so `add_installed_pkgs_by_basename`,
`add_installed_pkgs_by_pattern` and `match_installed_pkgs` return -1 and
`find_best_matching_installed_pkg` returns `NULL`. -/
theorem closedir_failure_takes_precedence (matchiter : CStr → μ → Int × μ) (mc : μ)
    (alloc_lpkg : CStr → L) (pkg_match : CStr → CStr → Int)
    (pkg_order : CStr → CStr → Option CStr → Int) (cb : CStr → κ → Int × κ) (k : κ)
    (pattern : CStr) (pkghead : List L) (h : Heap) (w : World) (dir : List dirent)
    (es : List CStr) (dend : DIR) (fuel : Nat) (hopen : w.dirs w.pkgdb_dir = some dir)
    (hclose : w.closedir_fails = true) (hy : Yields pkg_db_iter dir es dend)
    (hfuel : es.length < fuel) :
    (∃ r mc1 d1, iterate_pkg_generic_src matchiter mc pkg_db_iter dir fuel = some (r, mc1, d1) ∧
      iterate_pkg_db matchiter mc w fuel = some (-1, mc1, after_pkgdb_scan w)) ∧
    (∃ l, add_installed_pkgs_by_basename alloc_lpkg pattern pkghead w fuel
      = some (-1, l, after_pkgdb_scan w)) ∧
    (∃ l, add_installed_pkgs_by_pattern pkg_match alloc_lpkg pattern pkghead w fuel
      = some (-1, l, after_pkgdb_scan w)) ∧
    (∃ k1, match_installed_pkgs pkg_match pattern cb k w fuel
      = some (-1, k1, after_pkgdb_scan w)) ∧
    (∃ h1, find_best_matching_installed_pkg pkg_order pattern h w fuel
      = some (none, h1, after_pkgdb_scan w)) := by
  refine ⟨?_, ?_, ?_, ?_, ?_⟩
  · obtain ⟨r, mc1, hrun, hdb⟩ :=
      iterate_pkg_db_close_failed matchiter mc w dir es dend fuel hopen hclose hy hfuel
    exact ⟨r, mc1.1, mc1.2, hrun, hdb⟩
  · obtain ⟨r, mc1, -, hdb⟩ := iterate_pkg_db_close_failed (match_and_add alloc_lpkg)
      ⟨pkghead, 0, match_by_basename, pattern⟩ w dir es dend fuel hopen hclose hy hfuel
    exact ⟨mc1.1.pkghead, by simp [add_installed_pkgs_by_basename, hdb]⟩
  · obtain ⟨r, mc1, -, hdb⟩ := iterate_pkg_db_close_failed (match_and_add alloc_lpkg)
      ⟨pkghead, 0, match_by_pattern pkg_match, pattern⟩ w dir es dend fuel hopen hclose hy hfuel
    exact ⟨mc1.1.pkghead, by simp [add_installed_pkgs_by_pattern, hdb]⟩
  · obtain ⟨r, mc1, -, hdb⟩ := iterate_pkg_db_close_failed (match_and_call pkg_match)
      ⟨pattern, cb, k⟩ w dir es dend fuel hopen hclose hy hfuel
    exact ⟨mc1.1.cookie, by simp [match_installed_pkgs, hdb]⟩
  · obtain ⟨r, mc1, -, hdb⟩ := iterate_pkg_db_close_failed (match_best_installed pkg_order)
      (⟨pattern, none⟩, h) w dir es dend fuel hopen hclose hy hfuel
    exact ⟨mc1.1.2, by simp [find_best_matching_installed_pkg, hdb]⟩

/-- C9 (witness): the sample database in an environment whose `closedir`
fails, with the sample match function, matcher, ordering and callback. -/
theorem closedir_failure_takes_precedence_witness :
    (∃ r mc1 d1, iterate_pkg_generic_src sample_match 0 pkg_db_iter sample_db 7
        = some (r, mc1, d1) ∧
      iterate_pkg_db sample_match 0 (sample_world sample_db true) 7
        = some (-1, mc1, after_pkgdb_scan (sample_world sample_db true))) ∧
    (∃ l, add_installed_pkgs_by_basename id "foo".toList [] (sample_world sample_db true) 7
      = some (-1, l, after_pkgdb_scan (sample_world sample_db true))) ∧
    (∃ l, add_installed_pkgs_by_pattern sample_pkg_match id "foo".toList []
        (sample_world sample_db true) 7
      = some (-1, l, after_pkgdb_scan (sample_world sample_db true))) ∧
    (∃ k1, match_installed_pkgs sample_pkg_match "foo".toList sample_cb 0
        (sample_world sample_db true) 7
      = some (-1, k1, after_pkgdb_scan (sample_world sample_db true))) ∧
    (∃ h1, find_best_matching_installed_pkg sample_pkg_order "foo".toList (sample_heap [])
        (sample_world sample_db true) 7
      = some (none, h1, after_pkgdb_scan (sample_world sample_db true))) :=
  closedir_failure_takes_precedence sample_match 0 id sample_pkg_match sample_pkg_order
    sample_cb 0 "foo".toList [] (sample_heap []) (sample_world sample_db true) sample_db
    (pkg_db_names sample_db) [] 7 (by decide) rfl (yields_pkg_db_iter sample_db) (by decide)

/-- A failing `closedir`, evaluated on the sample database: basename foo
returns -1 although foo-1.0 and foo-2.0 were appended, the callback that
returned 1 is overridden by -1, and the best match foo-2.0 is not returned
(its block is still live). -/
theorem scenario_closedir_failure :
    (add_installed_pkgs_by_basename id "foo".toList [] (sample_world sample_db true) 7).map
        (fun x => (x.1, x.2.1))
      = some (-1, ["foo-1.0".toList, "foo-2.0".toList]) ∧
    (match_installed_pkgs sample_pkg_match "foo-*".toList (traced sample_cb) (0, [])
        (sample_world sample_db true) 7).map (fun x => (x.1, x.2.1))
      = some (-1, (1, ["foo-1.0".toList])) ∧
    (find_best_matching_installed_pkg sample_pkg_order "foo-*".toList (sample_heap [])
        (sample_world sample_db true) 7).map (fun x => (x.1, x.2.1.live))
      = some (none, [(1, "foo-2.0".toList)]) := by
  refine ⟨?_, ?_, ?_⟩ <;> decide

/-- C10: when the package database directory cannot be opened, whatever the
fuel, `iterate_pkg_db` returns -1 without calling the match function (the
instrumented callback records no call and the cookie is unchanged), the two
collect operations return -1 and leave the list as it was,
`match_installed_pkgs` returns -1 without calling the callback, and
`find_best_matching_installed_pkg` returns `NULL` and leaves the heap as it
was; the only directory system call made is the failed `opendir`. -/
theorem opendir_failure (matchiter : CStr → μ → Int × μ) (mc : μ)
    (alloc_lpkg : CStr → L) (pkg_match : CStr → CStr → Int)
    (pkg_order : CStr → CStr → Option CStr → Int) (cb : CStr → κ → Int × κ) (k : κ)
    (pattern : CStr) (pkghead : List L) (h : Heap) (w : World) (fuel : Nat)
    (hopen : w.dirs w.pkgdb_dir = none) :
    iterate_pkg_db (traced matchiter) (mc, []) w fuel
      = some (-1, (mc, []), after_pkgdb_open_failed w) ∧
    add_installed_pkgs_by_basename alloc_lpkg pattern pkghead w fuel
      = some (-1, pkghead, after_pkgdb_open_failed w) ∧
    add_installed_pkgs_by_pattern pkg_match alloc_lpkg pattern pkghead w fuel
      = some (-1, pkghead, after_pkgdb_open_failed w) ∧
    match_installed_pkgs pkg_match pattern (traced cb) (k, []) w fuel
      = some (-1, (k, []), after_pkgdb_open_failed w) ∧
    find_best_matching_installed_pkg pkg_order pattern h w fuel
      = some (none, h, after_pkgdb_open_failed w) ∧
    (after_pkgdb_open_failed w).trace = w.trace ++ [FsEvent.opendir_failed w.pkgdb_dir] := by
  refine ⟨iterate_pkg_db_of_open_failed _ _ _ _ hopen, ?_, ?_, ?_, ?_, rfl⟩
  · simp [add_installed_pkgs_by_basename, iterate_pkg_db_of_open_failed _ _ _ _ hopen]
  · simp [add_installed_pkgs_by_pattern, iterate_pkg_db_of_open_failed _ _ _ _ hopen]
  · simp [match_installed_pkgs, iterate_pkg_db_of_open_failed _ _ _ _ hopen]
  · simp [find_best_matching_installed_pkg, iterate_pkg_db_of_open_failed _ _ _ _ hopen]

/-- C10 (witness): an environment in which the package database directory
does not exist. -/
theorem opendir_failure_witness :
    iterate_pkg_db (traced sample_match) (0, []) sample_world_noent 7
      = some (-1, (0, []), after_pkgdb_open_failed sample_world_noent) ∧
    add_installed_pkgs_by_basename id "foo".toList [['x']] sample_world_noent 7
      = some (-1, [['x']], after_pkgdb_open_failed sample_world_noent) ∧
    add_installed_pkgs_by_pattern sample_pkg_match id "foo".toList [['x']] sample_world_noent 7
      = some (-1, [['x']], after_pkgdb_open_failed sample_world_noent) ∧
    match_installed_pkgs sample_pkg_match "foo".toList (traced sample_cb) (0, [])
        sample_world_noent 7
      = some (-1, (0, []), after_pkgdb_open_failed sample_world_noent) ∧
    find_best_matching_installed_pkg sample_pkg_order "foo".toList (sample_heap [])
        sample_world_noent 7
      = some (none, sample_heap [], after_pkgdb_open_failed sample_world_noent) ∧
    (after_pkgdb_open_failed sample_world_noent).trace
      = sample_world_noent.trace ++ [FsEvent.opendir_failed sample_world_noent.pkgdb_dir] :=
  opendir_failure sample_match 0 id sample_pkg_match sample_pkg_order sample_cb 0
    "foo".toList [['x']] (sample_heap []) sample_world_noent 7 rfl

/-! ### Allocation failure during a best-match update -/

/-- When the calls along `pre` return 0 and the call on the next entry `e`
returns non-zero, the loop stops there: it returns that value, with the
cookie as it is after the calls on `pre` and `e`. -/
theorem iterate_pkg_generic_src_stops_at (matchiter : CStr → μ → Int × μ) (mc : μ)
    (srciter : σ → Option CStr × σ) (sc s1 : σ) (es pre post : List CStr) (e : CStr)
    (fuel : Nat) (hsrc : Yields srciter sc es s1) (hfuel : es.length < fuel)
    (hes : es = pre ++ e :: post) (hq : quiet matchiter mc pre)
    (hne : result_after matchiter mc pre e ≠ 0) :
    ∃ sm, iterate_pkg_generic_src matchiter mc srciter sc fuel
      = some (result_after matchiter mc pre e, cookie_after matchiter mc (pre ++ [e]), sm) := by
  obtain ⟨sl, hp, hend⟩ := hsrc
  rcases iterate_loop_run matchiter srciter hp hend fuel mc hfuel with
    ⟨hq2, -⟩ | ⟨pre2, e2, post2, sm, hes2, hq2, hne2, -, hrun⟩
  · exact absurd (hq2 pre e post hes) hne
  · obtain ⟨rfl, rfl⟩ := first_stop_unique matchiter mc pre pre2 post post2 e e2
      (by rw [← hes, ← hes2]) hq hq2 hne hne2
    exact ⟨sm, hrun⟩

/-- A call of `match_best_installed` in which `pkg_order` returns 1 and the
`strdup` fails returns -1 and leaves the accumulator `NULL`. -/
theorem match_best_installed_dup_failure (pkg_order : CStr → CStr → Option CStr → Int)
    (pkg : CStr) (st : best_installed_match_arg × Heap)
    (hord : pkg_order st.1.pattern pkg (st.2.read st.1.best_current_match) = 1)
    (hdup : (strdup (free st.2 st.1.best_current_match) pkg).1 = none) :
    (match_best_installed pkg_order pkg st).1 = -1 ∧
    (match_best_installed pkg_order pkg st).2.1.best_current_match = none := by
  have hne : ¬ (pkg_order st.1.pattern pkg (st.2.read st.1.best_current_match) = 0 ∨
      pkg_order st.1.pattern pkg (st.2.read st.1.best_current_match) = 2) := by
    rw [hord]; decide
  simp only [match_best_installed, hne, hord, if_true, if_false]
  rcases hs : strdup (free st.2 st.1.best_current_match) pkg with ⟨_ | p, h1⟩
  · exact ⟨rfl, rfl⟩
  · rw [hs] at hdup
    simp at hdup

/-- C11: let the package database directory open and `es` be what the
adapter yields, with `es = pre ++ e :: post`. If no call on `pre` stopped
the traversal and, on `e`, `pkg_order` returns 1 and the `strdup` of `e`
fails, then (with fuel for the loop) `find_best_matching_installed_pkg`
returns `NULL`, whatever had been accumulated along `pre`, and the entries
passed to `match_best_installed` (hence to `pkg_order`), as recorded by the
instrumented run, are `pre ++ [e]`: nothing of `post` is looked at. -/
theorem find_best_matching_installed_pkg_dup_failure
    (pkg_order : CStr → CStr → Option CStr → Int) (pattern : CStr) (h : Heap) (w : World)
    (dir : List dirent) (es pre post : List CStr) (e : CStr) (dend : DIR) (fuel : Nat)
    (hopen : w.dirs w.pkgdb_dir = some dir) (hy : Yields pkg_db_iter dir es dend)
    (hfuel : es.length < fuel) (hes : es = pre ++ e :: post)
    (hpre : quiet (match_best_installed pkg_order) (⟨pattern, none⟩, h) pre)
    (hord : pkg_order pattern e
      ((accumulator_after pkg_order pattern h pre).2.read
        (accumulator_after pkg_order pattern h pre).1.best_current_match) = 1)
    (hdup : (strdup (free (accumulator_after pkg_order pattern h pre).2
      (accumulator_after pkg_order pattern h pre).1.best_current_match) e).1 = none) :
    (∃ h1, find_best_matching_installed_pkg pkg_order pattern h w fuel
      = some (none, h1, after_pkgdb_scan w)) ∧
    (∃ r st1, iterate_pkg_db (traced (match_best_installed pkg_order))
        ((⟨pattern, none⟩, h), []) w fuel
      = some (r, (st1, pre ++ [e]), after_pkgdb_scan w) ∧
      st1.1.best_current_match = none) := by
  have hpat : ∀ l : List CStr, (accumulator_after pkg_order pattern h l).1.pattern = pattern := by
    intro l
    induction l using List.reverseRecOn with
    | nil => rfl
    | append_singleton l x ih =>
      simp only [accumulator_after, cookie_after_append, cookie_after_cons, cookie_after_nil]
      simp only [accumulator_after] at ih
      generalize cookie_after (match_best_installed pkg_order) (⟨pattern, none⟩, h) l = st at ih ⊢
      simp only [match_best_installed]
      split
      · exact ih
      · split
        · split <;> exact ih
        · exact ih
  have hord2 : pkg_order (accumulator_after pkg_order pattern h pre).1.pattern e
      ((accumulator_after pkg_order pattern h pre).2.read
        (accumulator_after pkg_order pattern h pre).1.best_current_match) = 1 := by
    rw [hpat]; exact hord
  obtain ⟨hres, hbest⟩ := match_best_installed_dup_failure pkg_order e
    (accumulator_after pkg_order pattern h pre) hord2 hdup
  have hra : result_after (match_best_installed pkg_order) (⟨pattern, none⟩, h) pre e = -1 :=
    hres
  constructor
  · obtain ⟨sm, hrun⟩ := iterate_pkg_generic_src_stops_at (match_best_installed pkg_order)
      (⟨pattern, none⟩, h) pkg_db_iter dir dend es pre post e fuel hy hfuel hes hpre
      (by rw [hra]; decide)
    refine ⟨(cookie_after (match_best_installed pkg_order) (⟨pattern, none⟩, h)
      (pre ++ [e])).2, ?_⟩
    simp only [find_best_matching_installed_pkg, iterate_pkg_db_of_open _ _ _ _ _ hopen, hrun,
      Option.map_some', hra]
    cases w.closedir_fails <;> simp
  · obtain ⟨sm, hrun⟩ := iterate_pkg_generic_src_stops_at
      (traced (match_best_installed pkg_order)) ((⟨pattern, none⟩, h), []) pkg_db_iter dir dend
      es pre post e fuel hy hfuel hes ((quiet_traced _ _ _ _).2 hpre)
      (by rw [result_after_traced, hra]; decide)
    rw [cookie_after_traced] at hrun
    refine ⟨if w.closedir_fails = true then -1
        else result_after (traced (match_best_installed pkg_order))
          ((⟨pattern, none⟩, h), []) pre e,
      cookie_after (match_best_installed pkg_order) (⟨pattern, none⟩, h) (pre ++ [e]), ?_, ?_⟩
    · rw [iterate_pkg_db_of_open _ _ _ _ _ hopen, hrun]
      simp only [Option.map_some', List.nil_append]
    · rw [cookie_after_append, cookie_after_cons, cookie_after_nil]
      exact hbest

/-- C11 (witness): the listing foo-1.0, foo-2.0 with the sample ordering
and a heap whose second allocation fails: foo-1.0 is accumulated, then the
duplication of foo-2.0 fails. -/
theorem find_best_matching_installed_pkg_dup_failure_witness :
    (∃ h1, find_best_matching_installed_pkg sample_pkg_order "foo-*".toList
        (sample_heap [false, true]) (sample_world sample_db_12 false) 3
      = some (none, h1, after_pkgdb_scan (sample_world sample_db_12 false))) ∧
    (∃ r st1, iterate_pkg_db (traced (match_best_installed sample_pkg_order))
        ((⟨"foo-*".toList, none⟩, sample_heap [false, true]), [])
        (sample_world sample_db_12 false) 3
      = some (r, (st1, ["foo-1.0".toList] ++ ["foo-2.0".toList]),
          after_pkgdb_scan (sample_world sample_db_12 false)) ∧
      st1.1.best_current_match = none) :=
  find_best_matching_installed_pkg_dup_failure sample_pkg_order "foo-*".toList
    (sample_heap [false, true]) (sample_world sample_db_12 false) sample_db_12
    (pkg_db_names sample_db_12) ["foo-1.0".toList] [] "foo-2.0".toList [] 3 (by decide)
    (yields_pkg_db_iter sample_db_12) (by decide) (by decide)
    ((quiet_cons _ _ _ _).2 ⟨by decide, quiet_nil _ _⟩) (by decide) (by decide)

/-- The failing duplication, evaluated: the result is `NULL`, no block is
live, and with a third entry foo-3.0 in the listing the recorded calls still
end with foo-2.0. -/
theorem scenario_dup_failure :
    (find_best_matching_installed_pkg sample_pkg_order "foo-*".toList
        (sample_heap [false, true]) (sample_world sample_db_12 false) 3).map
          (fun x => (x.1, x.2.1.live))
      = some (none, []) ∧
    (iterate_pkg_db (traced (match_best_installed sample_pkg_order))
        ((⟨"foo-*".toList, none⟩, sample_heap [false, true]), [])
        (sample_world (sample_db_12 ++ [⟨"foo-3.0".toList, DT_DIR⟩]) false) 4).map
          (fun x => (x.1, x.2.1.2))
      = some (-1, ["foo-1.0".toList, "foo-2.0".toList]) := by
  constructor <;> decide

/-! ### The two directory adapters -/

/-- C12: on every listing the sequence of `pkg_db_iter` (what it returns
until it returns `NULL`) is, in the order of the listing and once each, the
names of the entries that `pkg_db_keeps` retains, that is, whose name is none
of `.`, `..`, `pkgdb.byfile.db`, `.cookie`, `pkg-vulnerabilities` and whose
type is unknown or directory; it has no other sequence, so none of the five
reserved names is ever yielded. -/
theorem pkg_db_iter_sequence (dir : List dirent) :
    Yields pkg_db_iter dir ((dir.filter pkg_db_keeps).map dirent.d_name) [] ∧
    (∀ dp : dirent, pkg_db_keeps dp = true ↔
      (dp.d_name ≠ ".".toList ∧ dp.d_name ≠ "..".toList ∧
        dp.d_name ≠ "pkgdb.byfile.db".toList ∧ dp.d_name ≠ ".cookie".toList ∧
        dp.d_name ≠ "pkg-vulnerabilities".toList) ∧
      (dp.d_type = DT_UNKNOWN ∨ dp.d_type = DT_DIR)) ∧
    (∀ (es : List CStr) (dend : DIR), Yields pkg_db_iter dir es dend →
      es = (dir.filter pkg_db_keeps).map dirent.d_name ∧
      ∀ e ∈ es, e ≠ ".".toList ∧ e ≠ "..".toList ∧ e ≠ "pkgdb.byfile.db".toList ∧
        e ≠ ".cookie".toList ∧ e ≠ "pkg-vulnerabilities".toList) := by
  have hkeeps : ∀ dp : dirent, pkg_db_keeps dp = true ↔
      (dp.d_name ≠ ".".toList ∧ dp.d_name ≠ "..".toList ∧
        dp.d_name ≠ "pkgdb.byfile.db".toList ∧ dp.d_name ≠ ".cookie".toList ∧
        dp.d_name ≠ "pkg-vulnerabilities".toList) ∧
      (dp.d_type = DT_UNKNOWN ∨ dp.d_type = DT_DIR) := by
    intro dp
    simp [pkg_db_keeps]
  refine ⟨yields_pkg_db_iter dir, hkeeps, ?_⟩
  intro es dend hy
  have hes : es = (dir.filter pkg_db_keeps).map dirent.d_name :=
    yields_unique hy (yields_pkg_db_iter dir)
  refine ⟨hes, ?_⟩
  intro e he
  rw [hes] at he
  obtain ⟨dp, hdp, rfl⟩ := List.mem_map.1 he
  exact ((hkeeps dp).1 (List.mem_filter.1 hdp).2).1

theorem memcmp_eq_zero_iff (s t : CStr) (n : Nat) :
    memcmp s t n = 0 ↔ s.take n = t.take n := by
  induction n generalizing s t with
  | zero => simp [memcmp]
  | succ n ih =>
    cases s with
    | nil => cases t <;> simp [memcmp]
    | cons a s =>
      cases t with
      | nil => simp [memcmp]
      | cons b t =>
        by_cases hab : a = b
        · simp [memcmp, hab, ih]
        · by_cases hlt : a.toNat < b.toNat <;> simp [memcmp, hab, hlt]

/-- The comparison `memcmp(name + len - 4, suffix, 4) == 0` of `pkg_dir_iter`
on a name of at least 5 characters and a suffix of 4. -/
theorem memcmp_tail_eq_zero_iff (name suffix : CStr) (hlen : 5 ≤ name.length)
    (hs : suffix.length = 4) :
    memcmp (name.drop (name.length - 4)) suffix 4 = 0
      ↔ name.drop (name.length - 4) = suffix := by
  rw [memcmp_eq_zero_iff]
  have h1 : (name.drop (name.length - 4)).length = 4 := by
    rw [List.length_drop]; omega
  rw [List.take_of_length_le (by omega), List.take_of_length_le (by omega)]

theorem pkg_dir_iter_cons (dp : dirent) (dirp : DIR) :
    pkg_dir_iter (dp :: dirp)
      = if pkg_dir_keeps dp then (some dp.d_name, dirp) else pkg_dir_iter dirp := by
  by_cases ht : dp.d_type ≠ DT_UNKNOWN ∧ dp.d_type ≠ DT_REG
  · have hk : pkg_dir_keeps dp = false := by
      simp only [pkg_dir_keeps, Bool.and_eq_false_imp, Bool.and_eq_true, decide_eq_true_eq,
        decide_eq_false_iff_not]
      intro h
      rcases h.1 with h1 | h1
      · exact absurd h1 ht.1
      · exact absurd h1 ht.2
    simp [pkg_dir_iter, ht, hk]
  · have ht2 : dp.d_type = DT_UNKNOWN ∨ dp.d_type = DT_REG := by
      by_contra hcon
      exact ht ⟨fun h => hcon (Or.inl h), fun h => hcon (Or.inr h)⟩
    by_cases hl : dp.d_name.length < 5
    · have hk : pkg_dir_keeps dp = false := by
        simp only [pkg_dir_keeps, Bool.and_eq_false_imp, Bool.and_eq_true, decide_eq_true_eq,
          decide_eq_false_iff_not]
        intro h
        omega
      simp only [pkg_dir_iter, ht, hl, if_true, if_false, hk]
      simp
    · have hl2 : 5 ≤ dp.d_name.length := by omega
      have e1 := memcmp_tail_eq_zero_iff dp.d_name ['.', 't', 'g', 'z'] hl2 rfl
      have e2 := memcmp_tail_eq_zero_iff dp.d_name ['.', 't', 'b', 'z'] hl2 rfl
      simp only [pkg_dir_iter, ht, hl, if_false, e1, e2]
      simp only [pkg_dir_keeps, ht2, hl2, decide_True, Bool.true_and]
      by_cases hsuf : dp.d_name.drop (dp.d_name.length - 4) = ['.', 't', 'g', 'z'] ∨
          dp.d_name.drop (dp.d_name.length - 4) = ['.', 't', 'b', 'z']
      · simp [hsuf]
      · simp [hsuf]

/-- The sequence of `pkg_dir_iter` on a listing is `pkg_dir_names` of it,
and the stream is left empty. -/
theorem yields_pkg_dir_iter (dir : List dirent) :
    Yields pkg_dir_iter dir (pkg_dir_names dir) [] := by
  induction dir with
  | nil => exact ⟨[], Pulls.nil _, rfl⟩
  | cons dp dir ih =>
    by_cases hk : pkg_dir_keeps dp = true
    · obtain ⟨sl, hp, hend⟩ := ih
      refine ⟨sl, ?_, hend⟩
      simp only [pkg_dir_names, List.filter_cons, hk, if_true, List.map_cons]
      exact Pulls.cons (by rw [pkg_dir_iter_cons, if_pos hk]) hp
    · have hnames : pkg_dir_names (dp :: dir) = pkg_dir_names dir := by
        simp [pkg_dir_names, List.filter_cons, hk]
      rw [hnames]
      exact yields_of_eq (by rw [pkg_dir_iter_cons, if_neg hk]) ih

/-- C15: on every listing the sequence of `pkg_dir_iter` is, in the order
of the listing and once each, the names of the entries that `pkg_dir_keeps`
retains: type unknown or regular file, a name of at least 5 characters, and
last 4 characters exactly `.tgz` or `.tbz`; it has no other sequence. In the
sample directory the directory x.tgz, the 4-character name `.tgz` and the
name a.TGZ are not yielded, and a.tgz and b.tbz are. -/
theorem pkg_dir_iter_sequence (dir : List dirent) :
    Yields pkg_dir_iter dir ((dir.filter pkg_dir_keeps).map dirent.d_name) [] ∧
    (∀ dp : dirent, pkg_dir_keeps dp = true ↔
      (dp.d_type = DT_UNKNOWN ∨ dp.d_type = DT_REG) ∧ 5 ≤ dp.d_name.length ∧
      (dp.d_name.drop (dp.d_name.length - 4) = ".tgz".toList ∨
        dp.d_name.drop (dp.d_name.length - 4) = ".tbz".toList)) ∧
    (∀ (es : List CStr) (dend : DIR), Yields pkg_dir_iter dir es dend →
      es = (dir.filter pkg_dir_keeps).map dirent.d_name) ∧
    Yields pkg_dir_iter sample_pkg_dir ["a.tgz".toList, "b.tbz".toList] [] ∧
    pkg_dir_iter [⟨".tgz".toList, DT_REG⟩] = (none, []) ∧
    pkg_dir_iter [⟨"a.TGZ".toList, DT_REG⟩] = (none, []) ∧
    pkg_dir_iter [⟨"x.tgz".toList, DT_DIR⟩] = (none, []) := by
  refine ⟨yields_pkg_dir_iter dir, ?_, ?_, ?_, by decide, by decide, by decide⟩
  · intro dp
    simp [pkg_dir_keeps, and_assoc]
  · intro es dend hy
    exact yields_unique hy (yields_pkg_dir_iter dir)
  · have h := yields_pkg_dir_iter sample_pkg_dir
    have hn : pkg_dir_names sample_pkg_dir = ["a.tgz".toList, "b.tbz".toList] := by decide
    rw [hn] at h
    exact h

theorem drop_eq_iff_suffix (name suffix : CStr) (hlen : suffix.length ≤ name.length) :
    name.drop (name.length - suffix.length) = suffix ↔ suffix <:+ name := by
  constructor
  · intro h
    rw [← h]
    exact List.drop_suffix _ _
  · rintro ⟨t, rfl⟩
    have : (t ++ suffix).length - suffix.length = t.length := by simp
    rw [this, List.drop_left]

theorem archive_candidate_eq_keeps (dp : dirent) : archive_candidate dp = pkg_dir_keeps dp := by
  by_cases hl : 5 ≤ dp.d_name.length
  · have e1 := drop_eq_iff_suffix dp.d_name ['.', 't', 'g', 'z'] (by simp; omega)
    have e2 := drop_eq_iff_suffix dp.d_name ['.', 't', 'b', 'z'] (by simp; omega)
    simp only [List.length_cons, List.length_nil] at e1 e2
    rw [Bool.eq_iff_iff]
    simp only [archive_candidate, named_archive, pkg_dir_keeps, Bool.and_eq_true,
      decide_eq_true_eq, e1, e2]
    tauto
  · simp [archive_candidate, pkg_dir_keeps, hl]

theorem count_map_filter (p : dirent → Bool) (dir : List dirent) (name : CStr) :
    ((dir.filter p).map dirent.d_name).count name
      = dir.countP (fun dp => p dp && decide (dp.d_name = name)) := by
  induction dir with
  | nil => rfl
  | cons dp dir ih =>
    by_cases hp : p dp = true
    · by_cases hn : dp.d_name = name
      · simp [List.filter_cons, hp, hn, List.countP_cons, ih]
      · simp [List.filter_cons, hp, hn, List.countP_cons, ih, List.count_cons]
    · simp [List.filter_cons, hp, List.countP_cons, ih]

/-- C13 (counterexample): the sample directory has 4 entries named `*.tgz`
or `*.tbz` (x.tgz, `.tgz`, a.tgz, b.tbz), yet `pkg_dir_iter` yields only
a.tgz and b.tbz: the directory x.tgz is named `*.tgz` and is skipped for its
type, and the name `.tgz` is skipped for having fewer than 5 characters. -/
theorem pkg_dir_iter_skips_named_archives :
    sample_pkg_dir.countP named_archive = 4 ∧
    Yields pkg_dir_iter sample_pkg_dir ["a.tgz".toList, "b.tbz".toList] [] ∧
    named_archive ⟨"x.tgz".toList, DT_DIR⟩ = true ∧
    pkg_dir_iter [⟨"x.tgz".toList, DT_DIR⟩] = (none, []) ∧
    named_archive ⟨".tgz".toList, DT_REG⟩ = true ∧
    pkg_dir_iter [⟨".tgz".toList, DT_REG⟩] = (none, []) := by
  refine ⟨by decide, ?_, by decide, by decide, by decide, by decide⟩
  have h := yields_pkg_dir_iter sample_pkg_dir
  have hn : pkg_dir_names sample_pkg_dir = ["a.tgz".toList, "b.tbz".toList] := by decide
  rw [hn] at h
  exact h

/-- C13 (amended): for every directory listing, with N the number of its
archive candidates (entries of unknown or regular-file type named `*.tgz` or
`*.tbz` with a name of at least 5 characters), `pkg_dir_iter` has exactly one
sequence; it has N entries, and every name occurs in it as many times as the
listing has archive candidates of that name, so each candidate is yielded
exactly once and no other entry is yielded. -/
theorem pkg_dir_iter_each_once (dir : List dirent) :
    ∃ es : List CStr, Yields pkg_dir_iter dir es [] ∧
      es.length = dir.countP archive_candidate ∧
      (∀ name : CStr, es.count name
        = dir.countP (fun dp => archive_candidate dp && decide (dp.d_name = name))) ∧
      (∀ (es2 : List CStr) (dend : DIR), Yields pkg_dir_iter dir es2 dend → es2 = es) := by
  have hfun : archive_candidate = pkg_dir_keeps := funext archive_candidate_eq_keeps
  refine ⟨pkg_dir_names dir, yields_pkg_dir_iter dir, ?_, ?_, ?_⟩
  · rw [hfun]
    simp [pkg_dir_names, List.countP_eq_length_filter]
  · intro name
    rw [hfun]
    exact count_map_filter pkg_dir_keeps dir name
  · intro es2 dend hy
    exact yields_unique hy (yields_pkg_dir_iter dir)

/-! ### Collect operations: pattern match, malformed entries, failing `closedir` -/

/-- What `iterate_pkg_db` does with `match_and_add` when the directory
opens: the loop runs over all yielded entries, and the result is 0 unless
`closedir` fails. -/
theorem iterate_pkg_db_match_and_add (alloc_lpkg : CStr → L) (arg : add_matching_arg L)
    (w : World) (dir : List dirent) (es : List CStr) (dend : DIR) (fuel : Nat)
    (hopen : w.dirs w.pkgdb_dir = some dir) (hy : Yields pkg_db_iter dir es dend)
    (hfuel : es.length < fuel) :
    iterate_pkg_db (match_and_add alloc_lpkg) arg w fuel
      = some (if w.closedir_fails = true then -1 else 0,
          cookie_after (match_and_add alloc_lpkg) arg es, after_pkgdb_scan w) := by
  rw [iterate_pkg_db_of_open _ _ _ _ _ hopen,
    iterate_pkg_generic_src_of_zero (match_and_add alloc_lpkg) (match_and_add_fst alloc_lpkg)
      arg pkg_db_iter dir dend es fuel hy hfuel]
  rfl

/-- The two collect operations when the directory opens, for any outcome of
`closedir`: the list is extended by the records of the matching entries, and
the result is -1 if `closedir` fails and the match flag otherwise. -/
theorem add_installed_pkgs_run (alloc_lpkg : CStr → L) (pkg_match : CStr → CStr → Int)
    (pattern : CStr) (pkghead : List L) (w : World) (dir : List dirent) (es : List CStr)
    (dend : DIR) (fuel : Nat) (hopen : w.dirs w.pkgdb_dir = some dir)
    (hy : Yields pkg_db_iter dir es dend) (hfuel : es.length < fuel) :
    (∃ g : Nat, add_installed_pkgs_by_basename alloc_lpkg pattern pkghead w fuel
        = some (if w.closedir_fails = true then -1 else (g : Int),
            pkghead ++ (es.filter
              (fun e => decide (match_by_basename e pattern = 1))).map alloc_lpkg,
            after_pkgdb_scan w) ∧
      ((∃ e ∈ es, match_by_basename e pattern = 1) → g = 1) ∧
      ((¬ ∃ e ∈ es, match_by_basename e pattern = 1) → g = 0)) ∧
    (∃ g : Nat, add_installed_pkgs_by_pattern pkg_match alloc_lpkg pattern pkghead w fuel
        = some (if w.closedir_fails = true then -1 else (g : Int),
            pkghead ++ (es.filter (fun e => decide (pkg_match pattern e = 1))).map alloc_lpkg,
            after_pkgdb_scan w) ∧
      ((∃ e ∈ es, pkg_match pattern e = 1) → g = 1) ∧
      ((¬ ∃ e ∈ es, pkg_match pattern e = 1) → g = 0)) := by
  constructor
  · obtain ⟨h1, h2, h3, -⟩ := cookie_after_match_and_add alloc_lpkg es
      ⟨pkghead, 0, match_by_basename, pattern⟩
    refine ⟨(cookie_after (match_and_add alloc_lpkg)
      ⟨pkghead, 0, match_by_basename, pattern⟩ es).got_match, ?_, h2, h3⟩
    simp only [add_installed_pkgs_by_basename,
      iterate_pkg_db_match_and_add alloc_lpkg _ w dir es dend fuel hopen hy hfuel, h1]
    cases w.closedir_fails
    · simp only [Bool.false_eq_true, if_false]
      rw [if_neg (by decide)]
    · simp
  · obtain ⟨h1, h2, h3, -⟩ := cookie_after_match_and_add alloc_lpkg es
      ⟨pkghead, 0, match_by_pattern pkg_match, pattern⟩
    refine ⟨(cookie_after (match_and_add alloc_lpkg)
      ⟨pkghead, 0, match_by_pattern pkg_match, pattern⟩ es).got_match, ?_, h2, h3⟩
    simp only [add_installed_pkgs_by_pattern,
      iterate_pkg_db_match_and_add alloc_lpkg _ w dir es dend fuel hopen hy hfuel, h1]
    cases w.closedir_fails
    · simp only [Bool.false_eq_true, if_false]
      rw [if_neg (by decide)]
      rfl
    · simp [match_by_pattern]

/-- C14: `match_by_pattern` returns what `pkg_match` returns; and when the
package database directory opens and closes successfully and `es` is what
the adapter yields, `add_installed_pkgs_by_pattern` returns (with fuel
for the loop) and leaves in `pkghead` the initial list followed by one record
for each yielded entry on which `pkg_match` reports a match (returns 1), in
the order they were yielded; the value returned is 1 if there is such an
entry and 0 otherwise. -/
theorem add_installed_pkgs_by_pattern_list (pkg_match : CStr → CStr → Int)
    (alloc_lpkg : CStr → L) (pattern : CStr) (pkghead : List L) (w : World)
    (dir : List dirent) (es : List CStr) (dend : DIR) (fuel : Nat)
    (hopen : w.dirs w.pkgdb_dir = some dir) (hclose : w.closedir_fails = false)
    (hy : Yields pkg_db_iter dir es dend) (hfuel : es.length < fuel) :
    (∀ pkg pat : CStr, match_by_pattern pkg_match pkg pat = pkg_match pat pkg) ∧
    ∃ r w1, add_installed_pkgs_by_pattern pkg_match alloc_lpkg pattern pkghead w fuel
        = some (r,
            pkghead ++ (es.filter (fun e => decide (pkg_match pattern e = 1))).map alloc_lpkg,
            w1) ∧
      ((∃ e ∈ es, pkg_match pattern e = 1) → r = 1) ∧
      ((¬ ∃ e ∈ es, pkg_match pattern e = 1) → r = 0) := by
  refine ⟨fun _ _ => rfl, ?_⟩
  obtain ⟨g, hrun, hg1, hg0⟩ := (add_installed_pkgs_run alloc_lpkg pkg_match pattern pkghead w
    dir es dend fuel hopen hy hfuel).2
  rw [hclose] at hrun
  simp only [Bool.false_eq_true, if_false] at hrun
  refine ⟨_, _, hrun, ?_, ?_⟩
  · intro hex
    rw [hg1 hex]
    rfl
  · intro hno
    rw [hg0 hno]
    rfl

/-- C14 (witness): the sample database with the sample matcher and the
pattern `foo-*`. -/
theorem add_installed_pkgs_by_pattern_list_witness :
    (∀ pkg pat : CStr, match_by_pattern sample_pkg_match pkg pat = sample_pkg_match pat pkg) ∧
    ∃ r w1, add_installed_pkgs_by_pattern sample_pkg_match id "foo-*".toList []
          (sample_world sample_db false) 7
        = some (r,
            [] ++ ((pkg_db_names sample_db).filter
              (fun e => decide (sample_pkg_match "foo-*".toList e = 1))).map id,
            w1) ∧
      ((∃ e ∈ pkg_db_names sample_db, sample_pkg_match "foo-*".toList e = 1) → r = 1) ∧
      ((¬ ∃ e ∈ pkg_db_names sample_db, sample_pkg_match "foo-*".toList e = 1) → r = 0) :=
  add_installed_pkgs_by_pattern_list sample_pkg_match id "foo-*".toList []
    (sample_world sample_db false) sample_db (pkg_db_names sample_db) [] 7 (by decide) rfl
    (yields_pkg_db_iter sample_db) (by decide)

/-- Collect-by-pattern, evaluated on the sample database: pattern `foo-*`
returns 1 and appends foo-1.0 and foo-2.0; pattern `baz-*` returns 0 and
leaves the list as it was. -/
theorem scenario_collect_by_pattern :
    (add_installed_pkgs_by_pattern sample_pkg_match id "foo-*".toList [['x']]
        (sample_world sample_db false) 7).map (fun x => (x.1, x.2.1))
      = some (1, [['x'], "foo-1.0".toList, "foo-2.0".toList]) ∧
    (add_installed_pkgs_by_pattern sample_pkg_match id "baz-*".toList [['x']]
        (sample_world sample_db false) 7).map (fun x => (x.1, x.2.1))
      = some (0, [['x']]) := by
  constructor <;> decide

theorem match_by_basename_of_no_dash (pkg target : CStr) (h : '-' ∉ pkg) :
    match_by_basename pkg target = 0 := by
  simp [match_by_basename, strrchr, strrchr_scan_not_mem '-' pkg h]

/-- Removing the entries without `-` from a listing does not change which
yielded entries match a basename. -/
theorem pkg_db_names_filter_dash (pkgbase : CStr) (dir : List dirent) :
    (pkg_db_names (dir.filter (fun dp => decide ('-' ∈ dp.d_name)))).filter
        (fun e => decide (match_by_basename e pkgbase = 1))
      = (pkg_db_names dir).filter (fun e => decide (match_by_basename e pkgbase = 1)) := by
  induction dir with
  | nil => rfl
  | cons dp dir ih =>
    simp only [pkg_db_names] at ih
    by_cases hd : '-' ∈ dp.d_name
    · by_cases hk : pkg_db_keeps dp = true
      · simp only [pkg_db_names, List.filter_cons, hd, hk, decide_True, if_true, List.map_cons]
        split
        · rw [ih]
        · exact ih
      · simp only [pkg_db_names, List.filter_cons, hd, hk, decide_True, if_true]
        exact ih
    · have hm : ¬ match_by_basename dp.d_name pkgbase = 1 := by
        rw [match_by_basename_of_no_dash _ _ hd]; decide
      by_cases hk : pkg_db_keeps dp = true
      · simp only [pkg_db_names, List.filter_cons, hd, hk, decide_False, if_true, List.map_cons,
          hm]
        exact ih
      · simp only [pkg_db_names, List.filter_cons, hd, hk, decide_False]
        exact ih

/-- C16: let two environments differ in that the package database listing
of the second is that of the first with every entry that has no `-` removed
(`closedir` behaving alike). Then (with fuel for the loop)
`add_installed_pkgs_by_basename` returns the same value and leaves the same
list in both. On an entry without `-`, `match_and_add` with the basename
match returns 0 and leaves its argument as it was: the iteration goes on and
nothing is appended. -/
theorem add_installed_pkgs_by_basename_skips_malformed (alloc_lpkg : CStr → L)
    (pkgbase : CStr) (pkghead : List L) (w1 w2 : World) (dir : List dirent) (fuel : Nat)
    (hopen1 : w1.dirs w1.pkgdb_dir = some dir)
    (hopen2 : w2.dirs w2.pkgdb_dir = some (dir.filter (fun dp => decide ('-' ∈ dp.d_name))))
    (hclose : w1.closedir_fails = w2.closedir_fails) (hfuel : dir.length < fuel) :
    (∃ r l v1 v2,
      add_installed_pkgs_by_basename alloc_lpkg pkgbase pkghead w1 fuel = some (r, l, v1) ∧
      add_installed_pkgs_by_basename alloc_lpkg pkgbase pkghead w2 fuel = some (r, l, v2)) ∧
    (∀ (e : CStr) (arg : add_matching_arg L), '-' ∉ e → arg.match_fn = match_by_basename →
      match_and_add alloc_lpkg e arg = (0, arg)) := by
  constructor
  · have hlen1 : (pkg_db_names dir).length < fuel := by
      have : (pkg_db_names dir).length ≤ dir.length := by
        simp only [pkg_db_names, List.length_map]
        exact List.length_filter_le _ _
      omega
    have hlen2 : (pkg_db_names (dir.filter (fun dp => decide ('-' ∈ dp.d_name)))).length
        < fuel := by
      have h1 : (pkg_db_names (dir.filter (fun dp => decide ('-' ∈ dp.d_name)))).length
          ≤ (dir.filter (fun dp => decide ('-' ∈ dp.d_name))).length := by
        simp only [pkg_db_names, List.length_map]
        exact List.length_filter_le _ _
      have h2 : (dir.filter (fun dp => decide ('-' ∈ dp.d_name))).length ≤ dir.length :=
        List.length_filter_le _ _
      omega
    obtain ⟨g1, hrun1, ha1, hb1⟩ := (add_installed_pkgs_run alloc_lpkg (fun _ _ => 0) pkgbase
      pkghead w1 dir _ _ fuel hopen1 (yields_pkg_db_iter dir) hlen1).1
    obtain ⟨g2, hrun2, ha2, hb2⟩ := (add_installed_pkgs_run alloc_lpkg (fun _ _ => 0) pkgbase
      pkghead w2 _ _ _ fuel hopen2 (yields_pkg_db_iter _) hlen2).1
    have hf := pkg_db_names_filter_dash pkgbase dir
    have hex : (∃ e ∈ pkg_db_names dir, match_by_basename e pkgbase = 1)
        ↔ (∃ e ∈ pkg_db_names (dir.filter (fun dp => decide ('-' ∈ dp.d_name))),
            match_by_basename e pkgbase = 1) := by
      constructor
      · rintro ⟨e, he, hm⟩
        have : e ∈ (pkg_db_names dir).filter
            (fun e => decide (match_by_basename e pkgbase = 1)) :=
          List.mem_filter.2 ⟨he, by simpa using hm⟩
        rw [← hf] at this
        exact ⟨e, (List.mem_filter.1 this).1, hm⟩
      · rintro ⟨e, he, hm⟩
        have : e ∈ (pkg_db_names (dir.filter (fun dp => decide ('-' ∈ dp.d_name)))).filter
            (fun e => decide (match_by_basename e pkgbase = 1)) :=
          List.mem_filter.2 ⟨he, by simpa using hm⟩
        rw [hf] at this
        exact ⟨e, (List.mem_filter.1 this).1, hm⟩
    have hg : g1 = g2 := by
      by_cases h : ∃ e ∈ pkg_db_names dir, match_by_basename e pkgbase = 1
      · rw [ha1 h, ha2 (hex.1 h)]
      · rw [hb1 h, hb2 (fun h2 => h (hex.2 h2))]
    rw [hf, ← hclose, ← hg] at hrun2
    exact ⟨_, _, _, _, hrun1, hrun2⟩
  · intro e arg hd hfn
    have hm : ¬ arg.match_fn e arg.cookie = 1 := by
      rw [hfn, match_by_basename_of_no_dash _ _ hd]; decide
    simp [match_and_add, hm]

/-- C16 (witness): the listing foo-1.0, junk, foo-2.0 and the same
listing without junk, basename foo. -/
theorem add_installed_pkgs_by_basename_skips_malformed_witness :
    (∃ r l v1 v2,
      add_installed_pkgs_by_basename id "foo".toList [] (sample_world sample_db_malformed false) 4
        = some (r, l, v1) ∧
      add_installed_pkgs_by_basename id "foo".toList [] (sample_world sample_db_12 false) 4
        = some (r, l, v2)) ∧
    (∀ (e : CStr) (arg : add_matching_arg CStr), '-' ∉ e → arg.match_fn = match_by_basename →
      match_and_add id e arg = (0, arg)) :=
  add_installed_pkgs_by_basename_skips_malformed id "foo".toList []
    (sample_world sample_db_malformed false) (sample_world sample_db_12 false)
    sample_db_malformed 4 (by decide) (by decide) rfl (by decide)

/-- The malformed entry, evaluated: with junk between foo-1.0 and foo-2.0,
basename foo returns 1 and appends foo-1.0 and foo-2.0, so junk neither
stops the iteration nor is appended. -/
theorem scenario_malformed_entry :
    (add_installed_pkgs_by_basename id "foo".toList []
        (sample_world sample_db_malformed false) 4).map (fun x => (x.1, x.2.1))
      = some (1, ["foo-1.0".toList, "foo-2.0".toList]) := by
  decide

/-- C19: when the package database directory opens but `closedir` fails
and `es` is what the adapter yields, then (with fuel for the loop) both
collect operations return -1 and have nevertheless extended the list by the
records of all matching yielded entries; this is the list the call produces
in the same environment with a succeeding `closedir`. So after such a -1 the
list is as it was only if no yielded entry matched. -/
theorem collect_not_atomic_on_closedir_failure (alloc_lpkg : CStr → L)
    (pkg_match : CStr → CStr → Int) (pattern : CStr) (pkghead : List L) (w : World)
    (dir : List dirent) (es : List CStr) (dend : DIR) (fuel : Nat)
    (hopen : w.dirs w.pkgdb_dir = some dir) (hclose : w.closedir_fails = true)
    (hy : Yields pkg_db_iter dir es dend) (hfuel : es.length < fuel) :
    add_installed_pkgs_by_basename alloc_lpkg pattern pkghead w fuel
      = some (-1,
          pkghead ++ (es.filter
            (fun e => decide (match_by_basename e pattern = 1))).map alloc_lpkg,
          after_pkgdb_scan w) ∧
    add_installed_pkgs_by_pattern pkg_match alloc_lpkg pattern pkghead w fuel
      = some (-1,
          pkghead ++ (es.filter (fun e => decide (pkg_match pattern e = 1))).map alloc_lpkg,
          after_pkgdb_scan w) ∧
    (∃ r v, add_installed_pkgs_by_basename alloc_lpkg pattern pkghead
        { w with closedir_fails := false } fuel
      = some (r,
          pkghead ++ (es.filter
            (fun e => decide (match_by_basename e pattern = 1))).map alloc_lpkg, v)) ∧
    (∃ r v, add_installed_pkgs_by_pattern pkg_match alloc_lpkg pattern pkghead
        { w with closedir_fails := false } fuel
      = some (r,
          pkghead ++ (es.filter (fun e => decide (pkg_match pattern e = 1))).map alloc_lpkg,
          v)) ∧
    (pkghead ++ (es.filter (fun e => decide (match_by_basename e pattern = 1))).map alloc_lpkg
        = pkghead ↔ ∀ e ∈ es, match_by_basename e pattern ≠ 1) ∧
    (pkghead ++ (es.filter (fun e => decide (pkg_match pattern e = 1))).map alloc_lpkg
        = pkghead ↔ ∀ e ∈ es, pkg_match pattern e ≠ 1) := by
  obtain ⟨⟨g1, hb, -, -⟩, ⟨g2, hp, -, -⟩⟩ := add_installed_pkgs_run alloc_lpkg pkg_match
    pattern pkghead w dir es dend fuel hopen hy hfuel
  obtain ⟨⟨g3, hb2, -, -⟩, ⟨g4, hp2, -, -⟩⟩ := add_installed_pkgs_run alloc_lpkg pkg_match
    pattern pkghead { w with closedir_fails := false } dir es dend fuel hopen hy hfuel
  rw [hclose] at hb hp
  simp only [if_true] at hb hp
  refine ⟨hb, hp, ⟨_, _, hb2⟩, ⟨_, _, hp2⟩, ?_, ?_⟩
  · simp [List.filter_eq_nil_iff]
  · simp [List.filter_eq_nil_iff]

/-- C19 (witness): the sample database in an environment whose `closedir`
fails, basename or pattern foo. -/
theorem collect_not_atomic_on_closedir_failure_witness :
    add_installed_pkgs_by_basename id "foo".toList [] (sample_world sample_db true) 7
      = some (-1,
          [] ++ ((pkg_db_names sample_db).filter
            (fun e => decide (match_by_basename e "foo".toList = 1))).map id,
          after_pkgdb_scan (sample_world sample_db true)) ∧
    add_installed_pkgs_by_pattern sample_pkg_match id "foo".toList []
        (sample_world sample_db true) 7
      = some (-1,
          [] ++ ((pkg_db_names sample_db).filter
            (fun e => decide (sample_pkg_match "foo".toList e = 1))).map id,
          after_pkgdb_scan (sample_world sample_db true)) ∧
    (∃ r v, add_installed_pkgs_by_basename id "foo".toList []
        { sample_world sample_db true with closedir_fails := false } 7
      = some (r,
          [] ++ ((pkg_db_names sample_db).filter
            (fun e => decide (match_by_basename e "foo".toList = 1))).map id, v)) ∧
    (∃ r v, add_installed_pkgs_by_pattern sample_pkg_match id "foo".toList []
        { sample_world sample_db true with closedir_fails := false } 7
      = some (r,
          [] ++ ((pkg_db_names sample_db).filter
            (fun e => decide (sample_pkg_match "foo".toList e = 1))).map id,
          v)) ∧
    ([] ++ ((pkg_db_names sample_db).filter
          (fun e => decide (match_by_basename e "foo".toList = 1))).map id
        = [] ↔ ∀ e ∈ pkg_db_names sample_db, match_by_basename e "foo".toList ≠ 1) ∧
    ([] ++ ((pkg_db_names sample_db).filter
          (fun e => decide (sample_pkg_match "foo".toList e = 1))).map id
        = [] ↔ ∀ e ∈ pkg_db_names sample_db, sample_pkg_match "foo".toList e ≠ 1) :=
  collect_not_atomic_on_closedir_failure id sample_pkg_match "foo".toList []
    (sample_world sample_db true) sample_db (pkg_db_names sample_db) [] 7 (by decide) rfl
    (yields_pkg_db_iter sample_db) (by decide)

/-! ### Ownership of the accumulated best match -/

/-- A non-zero value returned by the loop is the result of a call of the
match function, and the cookie is as that call left it. -/
theorem iterate_loop_stop_call (matchiter : CStr → μ → Int × μ) (srciter : σ → Option CStr × σ) :
    ∀ (fuel : Nat) (retval : Int) (mc : μ) (sc : σ) (r : Int) (mc1 : μ) (sc1 : σ),
      iterate_loop matchiter srciter fuel retval mc sc = some (r, mc1, sc1) → r ≠ 0 →
      retval = 0 → ∃ e m, matchiter e m = (r, mc1) := by
  intro fuel
  induction fuel with
  | zero => intro _ _ _ _ _ _ h; simp [iterate_loop] at h
  | succ f ih =>
    intro retval mc sc r mc1 sc1 h hr hret
    simp only [iterate_loop] at h
    rcases hs : srciter sc with ⟨_ | e, sc2⟩
    · rw [hs] at h
      simp only [Option.some.injEq, Prod.mk.injEq] at h
      exact absurd (h.1.symm.trans hret) hr
    · rw [hs] at h
      simp only at h
      by_cases h0 : (matchiter e mc).1 = 0
      · simp only [h0, ne_eq, not_true_eq_false, if_false] at h
        exact ih _ _ _ _ _ _ h hr rfl
      · simp only [ne_eq, h0, not_false_eq_true, if_true, Option.some.injEq,
          Prod.mk.injEq] at h
        exact ⟨e, mc, by rw [← h.1, ← h.2.1]⟩

/-- The three outcomes of a call of `match_best_installed`: nothing changes
and 0 is returned; or `pkg_order` returned 1 and the `strdup` failed, the old
block is freed, the accumulator is `NULL` and -1 is returned; or `pkg_order`
returned 1 and the `strdup` succeeded, the old block is freed, the
accumulator points to the fresh copy and 0 is returned. -/
theorem match_best_installed_cases (pkg_order : CStr → CStr → Option CStr → Int) (pkg : CStr)
    (st : best_installed_match_arg × Heap) :
    match_best_installed pkg_order pkg st = (0, st) ∨
    (∃ rest, (free st.2 st.1.best_current_match).oom = true :: rest ∧
      match_best_installed pkg_order pkg st
        = (-1, (⟨st.1.pattern, none⟩,
            ⟨(free st.2 st.1.best_current_match).live,
              (free st.2 st.1.best_current_match).next, rest⟩))) ∨
    match_best_installed pkg_order pkg st
      = (0, (⟨st.1.pattern, some (free st.2 st.1.best_current_match).next⟩,
          ⟨((free st.2 st.1.best_current_match).next, pkg)
              :: (free st.2 st.1.best_current_match).live,
            (free st.2 st.1.best_current_match).next + 1,
            (free st.2 st.1.best_current_match).oom.tail⟩)) := by
  by_cases h02 : pkg_order st.1.pattern pkg (st.2.read st.1.best_current_match) = 0 ∨
      pkg_order st.1.pattern pkg (st.2.read st.1.best_current_match) = 2
  · left
    simp only [match_best_installed, h02, if_true]
  · by_cases h1 : pkg_order st.1.pattern pkg (st.2.read st.1.best_current_match) = 1
    · rcases hoom : (free st.2 st.1.best_current_match).oom with _ | ⟨b, rest⟩
      · right; right
        simp [match_best_installed, h1, strdup, hoom]
      · cases b
        · right; right
          simp [match_best_installed, h1, strdup, hoom]
        · right; left
          exact ⟨rest, rfl, by simp [match_best_installed, h1, strdup, hoom]⟩
    · left
      simp only [match_best_installed, h02, h1, if_false]

theorem match_best_installed_minus_one (pkg_order : CStr → CStr → Option CStr → Int)
    (pkg : CStr) (st : best_installed_match_arg × Heap)
    (h : (match_best_installed pkg_order pkg st).1 = -1) :
    (match_best_installed pkg_order pkg st).2.1.best_current_match = none := by
  have hne : (0 : Int) ≠ -1 := by decide
  rcases match_best_installed_cases pkg_order pkg st with hc | ⟨rest, -, hc⟩ | hc
  · rw [hc] at h
    exact absurd h hne
  · rw [hc]
  · rw [hc] at h
    exact absurd h hne

/-- Every call of `match_best_installed` keeps the heap holding the block of
the accumulator and nothing else, whether the `strdup` succeeds or fails. -/
theorem match_best_installed_owns (pkg_order : CStr → CStr → Option CStr → Int) (pkg : CStr)
    (st : best_installed_match_arg × Heap) (hown : owns_only_best st) :
    owns_only_best (match_best_installed pkg_order pkg st).2 := by
  have hfree : (free st.2 st.1.best_current_match).live = [] := by
    rcases hown with ⟨hb, hl⟩ | ⟨a, s, hb, hl⟩
    · rw [hb]
      exact hl
    · rw [hb]
      simp [free, hl]
  rcases match_best_installed_cases pkg_order pkg st with hc | ⟨rest, -, hc⟩ | hc
  · rw [hc]
    exact hown
  · rw [hc]
    exact Or.inl ⟨rfl, hfree⟩
  · rw [hc]
    exact Or.inr ⟨_, pkg, rfl, by simp [hfree]⟩

/-- Where `find_best_matching_installed_pkg` keeps its promise: started on
a heap with no live block, when it returns at most one block is live, and
unless `closedir` failed the live blocks are exactly the block returned to
the caller (none when it returns `NULL`), also after a failed `strdup`. -/
theorem find_best_matching_installed_pkg_owns (pkg_order : CStr → CStr → Option CStr → Int)
    (pattern : CStr) (h : Heap) (w : World) (fuel : Nat) (hlive : h.live = [])
    (p : Option Nat) (h1 : Heap) (w1 : World)
    (hret : find_best_matching_installed_pkg pkg_order pattern h w fuel = some (p, h1, w1)) :
    h1.live.length ≤ 1 ∧
    (w.closedir_fails = false →
      (p = none ∧ h1.live = []) ∨ (∃ a s, p = some a ∧ h1.live = [(a, s)])) := by
  simp only [find_best_matching_installed_pkg] at hret
  cases hit : iterate_pkg_db (match_best_installed pkg_order) (⟨pattern, none⟩, h) w fuel with
  | none => rw [hit] at hret; simp at hret
  | some x =>
    obtain ⟨r, st, w2⟩ := x
    rw [hit] at hret
    simp only at hret
    have hown : owns_only_best st ∧ (w.closedir_fails = false → r = -1 →
        st.1.best_current_match = none) := by
      cases hd : w.dirs w.pkgdb_dir with
      | none =>
        rw [iterate_pkg_db_of_open_failed _ _ _ _ hd] at hit
        simp only [Option.some.injEq, Prod.mk.injEq] at hit
        rw [← hit.2.1]
        exact ⟨Or.inl ⟨rfl, hlive⟩, fun _ _ => rfl⟩
      | some dir =>
        rw [iterate_pkg_db_of_open _ _ _ _ _ hd] at hit
        cases hg : iterate_pkg_generic_src (match_best_installed pkg_order)
            (⟨pattern, none⟩, h) pkg_db_iter dir fuel with
        | none => rw [hg] at hit; simp at hit
        | some y =>
          obtain ⟨r1, st1, d1⟩ := y
          rw [hg] at hit
          simp only [Option.map_some', Option.some.injEq, Prod.mk.injEq] at hit
          obtain ⟨hr, hst, -⟩ := hit
          subst hst
          have hP := iterate_loop_preserves (match_best_installed pkg_order) pkg_db_iter
            (fun s => owns_only_best s)
            (fun e m hm => match_best_installed_owns pkg_order e m hm)
            fuel 0 _ dir r1 st1 d1 (Or.inl ⟨rfl, hlive⟩) hg
          refine ⟨hP, ?_⟩
          intro hcf hr1
          rw [hcf] at hr
          simp only [Bool.false_eq_true, if_false] at hr
          rw [hr1] at hr
          obtain ⟨e, m, hcall⟩ := iterate_loop_stop_call (match_best_installed pkg_order)
            pkg_db_iter fuel 0 _ dir r1 st1 d1 hg (by rw [hr]; decide) rfl
          have h1 := match_best_installed_minus_one pkg_order e m (by rw [hcall, hr])
          rw [hcall] at h1
          exact h1
    obtain ⟨hown, hminus⟩ := hown
    have hlen : st.2.live.length ≤ 1 := by
      rcases hown with ⟨-, hl⟩ | ⟨a, s, -, hl⟩ <;> simp [hl]
    by_cases hr : r = -1
    · rw [if_pos hr] at hret
      simp only [Option.some.injEq, Prod.mk.injEq] at hret
      obtain ⟨rfl, rfl, -⟩ := hret
      refine ⟨hlen, fun hcf => Or.inl ⟨rfl, ?_⟩⟩
      have hb := hminus hcf hr
      rcases hown with ⟨-, hl⟩ | ⟨a, s, hb2, -⟩
      · exact hl
      · rw [hb] at hb2
        simp at hb2
    · rw [if_neg hr] at hret
      simp only [Option.some.injEq, Prod.mk.injEq] at hret
      obtain ⟨rfl, rfl, -⟩ := hret
      exact ⟨hlen, fun _ => hown⟩

/-- C17 (the code at the failing input): on the database holding foo-1.0
alone, when `closedir` fails `find_best_matching_installed_pkg` returns
`NULL` and the copy of foo-1.0 made for the accumulator is still live, with
no pointer to it left, so the string duplicated into the accumulator is
neither released nor returned; when `closedir` succeeds the same copy is
returned to the caller. -/
theorem find_best_matching_installed_pkg_closedir_leak :
    (find_best_matching_installed_pkg sample_pkg_order "foo-*".toList (sample_heap [])
        (sample_world sample_db_1 true) 2).map (fun x => (x.1, x.2.1.live))
      = some (none, [(0, "foo-1.0".toList)]) ∧
    (find_best_matching_installed_pkg sample_pkg_order "foo-*".toList (sample_heap [])
        (sample_world sample_db_1 false) 2).map (fun x => (x.1, x.2.1.live))
      = some (some 0, [(0, "foo-1.0".toList)]) := by
  constructor <;> decide

/-! ### The directory handle -/

theorem iterate_pkg_generic_src_returns (matchiter : CStr → μ → Int × μ) (mc : μ)
    (srciter : σ → Option CStr × σ) (sc s1 : σ) (es : List CStr) (fuel : Nat)
    (hsrc : Yields srciter sc es s1) (hfuel : es.length < fuel) :
    ∃ x, iterate_pkg_generic_src matchiter mc srciter sc fuel = some x := by
  obtain ⟨sl, hp, hend⟩ := hsrc
  rcases iterate_loop_run matchiter srciter hp hend fuel mc hfuel with
    ⟨-, hrun⟩ | ⟨pre, e, post, sm, -, -, -, -, hrun⟩
  · exact ⟨_, hrun⟩
  · exact ⟨_, hrun⟩

theorem pkg_db_names_length_le (dir : List dirent) : (pkg_db_names dir).length ≤ dir.length := by
  simp only [pkg_db_names, List.length_map]
  exact List.length_filter_le _ _

theorem pkg_dir_names_length_le (dir : List dirent) :
    (pkg_dir_names dir).length ≤ dir.length := by
  simp only [pkg_dir_names, List.length_map]
  exact List.length_filter_le _ _

/-- C18: with the directory system calls recorded in the trace of the
environment (calls made by the callbacks themselves apart), for every match
function: when the directory opens, `iterate_pkg_db` returns (with fuel for
the loop) and has added to the trace the successful `opendir` followed by
exactly one `closedir`, whatever the iteration returned; when the
`opendir` fails it returns -1 and has added the failed `opendir` only, so it
made no `closedir`. The same holds for `iterate_local_pkg_dir` and the
directory it is given. -/
theorem directory_closed_exactly_once (matchiter : CStr → μ → Int × μ) (mc : μ) (w : World)
    (path : CStr) (fuel : Nat) :
    (∀ dir, w.dirs w.pkgdb_dir = some dir → dir.length < fuel →
      ∃ r mc1 w1, iterate_pkg_db matchiter mc w fuel = some (r, mc1, w1) ∧
        w1.trace = w.trace ++ [FsEvent.opendir_ok w.pkgdb_dir,
          if w.closedir_fails = true then FsEvent.closedir_failed
          else FsEvent.closedir_ok]) ∧
    (w.dirs w.pkgdb_dir = none →
      ∃ w1, iterate_pkg_db matchiter mc w fuel = some (-1, mc, w1) ∧
        w1.trace = w.trace ++ [FsEvent.opendir_failed w.pkgdb_dir]) ∧
    (∀ dir, w.dirs path = some dir → dir.length < fuel →
      ∃ r mc1 w1, iterate_local_pkg_dir path matchiter mc w fuel = some (r, mc1, w1) ∧
        w1.trace = w.trace ++ [FsEvent.opendir_ok path,
          if w.closedir_fails = true then FsEvent.closedir_failed
          else FsEvent.closedir_ok]) ∧
    (w.dirs path = none →
      ∃ w1, iterate_local_pkg_dir path matchiter mc w fuel = some (-1, mc, w1) ∧
        w1.trace = w.trace ++ [FsEvent.opendir_failed path]) := by
  refine ⟨?_, ?_, ?_, ?_⟩
  · intro dir hopen hfuel
    obtain ⟨⟨r, mc1, d1⟩, hrun⟩ := iterate_pkg_generic_src_returns matchiter mc pkg_db_iter dir []
      (pkg_db_names dir) fuel (yields_pkg_db_iter dir)
      (Nat.lt_of_le_of_lt (pkg_db_names_length_le dir) hfuel)
    refine ⟨if w.closedir_fails = true then -1 else r, mc1, after_pkgdb_scan w, ?_, rfl⟩
    rw [iterate_pkg_db_of_open _ _ _ _ _ hopen, hrun]
    rfl
  · intro hopen
    exact ⟨after_pkgdb_open_failed w, iterate_pkg_db_of_open_failed _ _ _ _ hopen, rfl⟩
  · intro dir hopen hfuel
    obtain ⟨⟨r, mc1, d1⟩, hrun⟩ := iterate_pkg_generic_src_returns matchiter mc pkg_dir_iter dir []
      (pkg_dir_names dir) fuel (yields_pkg_dir_iter dir)
      (Nat.lt_of_le_of_lt (pkg_dir_names_length_le dir) hfuel)
    cases hcf : w.closedir_fails
    · refine ⟨r, mc1,
        { w with trace := w.trace ++ [FsEvent.opendir_ok path] ++ [FsEvent.closedir_ok] },
        ?_, ?_⟩
      · simp only [iterate_local_pkg_dir, opendir, hopen, hrun, closedir, hcf]
        simp only [Bool.false_eq_true, if_false]
        rw [if_neg (by decide)]
      · simp
    · refine ⟨-1, mc1,
        { w with trace := w.trace ++ [FsEvent.opendir_ok path] ++ [FsEvent.closedir_failed] },
        ?_, ?_⟩
      · simp only [iterate_local_pkg_dir, opendir, hopen, hrun, closedir, hcf]
        simp only [if_true]
      · simp
  · intro hopen
    refine ⟨{ w with trace := w.trace ++ [FsEvent.opendir_failed path] }, ?_, rfl⟩
    simp only [iterate_local_pkg_dir, opendir, hopen]

/-- The directory calls, evaluated on the sample database with the sample
match function, which stops the loop at its second call: the trace is the
successful `opendir` followed by one `closedir`, failed or not. -/
theorem scenario_directory_trace :
    (iterate_pkg_db sample_match 0 (sample_world sample_db false) 7).map
        (fun x => (x.1, x.2.2.trace))
      = some (0, [FsEvent.opendir_ok "/var/db/pkg".toList, FsEvent.closedir_ok]) ∧
    (iterate_pkg_db sample_cb 0 (sample_world sample_db true) 7).map
        (fun x => (x.1, x.2.1, x.2.2.trace))
      = some (-1, 1, [FsEvent.opendir_ok "/var/db/pkg".toList, FsEvent.closedir_failed]) ∧
    (iterate_local_pkg_dir "/tmp/pkgs".toList sample_cb 0 (sample_world sample_db false) 7).map
        (fun x => (x.1, x.2.1, x.2.2.trace))
      = some (-1, 0, [FsEvent.opendir_failed "/tmp/pkgs".toList]) := by
  refine ⟨?_, ?_, ?_⟩ <;> decide

/-! ### Ordering results other than 1 -/

/-- C20: whenever `pkg_order` returns a value other than 1 (0, 2, or any
other value), `match_best_installed` returns 0 and leaves its cookie, the
accumulator and the heap, exactly as it was. -/
theorem match_best_installed_other_result (pkg_order : CStr → CStr → Option CStr → Int)
    (pkg : CStr) (st : best_installed_match_arg × Heap)
    (hord : pkg_order st.1.pattern pkg (st.2.read st.1.best_current_match) ≠ 1) :
    match_best_installed pkg_order pkg st = (0, st) := by
  by_cases h02 : pkg_order st.1.pattern pkg (st.2.read st.1.best_current_match) = 0 ∨
      pkg_order st.1.pattern pkg (st.2.read st.1.best_current_match) = 2
  · simp only [match_best_installed, h02, if_true]
  · simp only [match_best_installed, h02, hord, if_false]

/-- C20 (witness): an ordering function that returns 7 on everything, with
foo-1.0 accumulated. -/
theorem match_best_installed_other_result_witness :
    match_best_installed (fun _ _ _ => 7) "foo-2.0".toList
        (⟨"foo-*".toList, some 0⟩, ⟨[(0, "foo-1.0".toList)], 1, []⟩)
      = (0, (⟨"foo-*".toList, some 0⟩, ⟨[(0, "foo-1.0".toList)], 1, []⟩)) :=
  match_best_installed_other_result (fun _ _ _ => 7) "foo-2.0".toList
    (⟨"foo-*".toList, some 0⟩, ⟨[(0, "foo-1.0".toList)], 1, []⟩) (by decide)

end PkgIterate
